import Mathlib

set_option maxRecDepth 8000

/-!
Verification of the calculator state-transition engine (`engine.js`).

The engine is a set of pure functions over an immutable record
(`createInitialState`, `inputDigit`, `inputDot`, `setOperator`, `toggleSign`,
`backspace`, `clearAll`, `evaluate`, `percent`, `formatNumber`, `compute`,
`preview`).  We give a shallow embedding:

* JavaScript numbers are embedded as exact rationals.  To keep every
  definition kernel-computable we represent them by an explicit (possibly
  unnormalised) fraction type `Frac` (integer numerator, natural
  denominator) with structurally recursive arithmetic; `Frac.val` maps a
  fraction to the rational number it denotes.  Non-finite numbers
  (`Infinity`, `-Infinity`, `NaN`) are the extra constructors of `JsNum`.
  Overflow of the double range is modeled: an arithmetic result at or past
  the ideal range limit `2 ^ 1024` becomes a signed infinity
  (`clampRange`), and inside `formatNumber` the product `n * 1e12` of the
  rounding step overflows the same way, making the displayed text
  `"Infinity"`/`"-Infinity"` with the error flag left false (the true
  IEEE-754 round-to-nearest boundary differs from `2 ^ 1024` only in the
  final ulp).  Binary rounding of in-range results and subnormal underflow
  are idealised away, exactly as the specification's arithmetic statements
  do.
* JavaScript strings are embedded as `List Char`; the display only ever
  holds ASCII text.
* `Math.pow` with an exponent whose exact value is not an integer produces
  an irrational real in general, which has no exact-rational counterpart;
  the embedding maps that case to `JsNum.nan` and every theorem about `^`
  is stated for integer exponents.
-/

/-- An exact (possibly unnormalised) fraction `num / den`.  All fractions
built by the engine have a positive denominator. -/
structure Frac where
  num : Int
  den : Nat
  deriving DecidableEq, Repr

namespace Frac

/-- The rational number denoted by a fraction. -/
def val (f : Frac) : ℚ := (f.num : ℚ) / (f.den : ℚ)

/-- Well-formedness: the denominator is positive. -/
def Pos (f : Frac) : Prop := 0 < f.den

instance : DecidablePred Pos := fun f => inferInstanceAs (Decidable (0 < f.den))

def ofNat (n : Nat) : Frac := ⟨n, 1⟩

def ofInt (n : Int) : Frac := ⟨n, 1⟩

def add (a b : Frac) : Frac := ⟨a.num * b.den + b.num * a.den, a.den * b.den⟩

def sub (a b : Frac) : Frac := ⟨a.num * b.den - b.num * a.den, a.den * b.den⟩

def mul (a b : Frac) : Frac := ⟨a.num * b.num, a.den * b.den⟩

def neg (a : Frac) : Frac := ⟨-a.num, a.den⟩

/-- Exact division.  The engine never divides by a zero value (the `/`
operator tests `b === 0` first, and the literal divisors are `100` and
powers of ten), so the zero-divisor branch is arbitrary. -/
def div (a b : Frac) : Frac :=
  if b.num = 0 then ⟨0, 1⟩
  else ⟨a.num * b.den * b.num.sign, a.den * b.num.natAbs⟩

/-- `a` raised to an integer power, exactly. -/
def fpow (a : Frac) (k : Int) : Frac :=
  if 0 ≤ k then ⟨a.num ^ k.toNat, a.den ^ k.toNat⟩
  else ⟨(a.den : Int) ^ (-k).toNat * a.num.sign ^ (-k).toNat, a.num.natAbs ^ (-k).toNat⟩

/-- `10 ^ e` for an integer exponent, exactly. -/
def pow10 (e : Int) : Frac :=
  if 0 ≤ e then ⟨(10 : Int) ^ e.toNat, 1⟩ else ⟨1, 10 ^ (-e).toNat⟩

theorem pos_add {a b : Frac} (ha : a.Pos) (hb : b.Pos) : (a.add b).Pos :=
  Nat.mul_pos ha hb

theorem pos_sub {a b : Frac} (ha : a.Pos) (hb : b.Pos) : (a.sub b).Pos :=
  Nat.mul_pos ha hb

theorem pos_ofInt (n : Int) : (ofInt n).Pos := Nat.one_pos

theorem pos_fpow {a : Frac} (ha : a.Pos) (k : Int) (hk : k < 0 → a.num ≠ 0) :
    (a.fpow k).Pos := by
  unfold fpow
  split
  · exact Nat.pos_pow_of_pos _ ha
  · exact Nat.pos_pow_of_pos _ (Int.natAbs_pos.mpr (hk (by omega)))

theorem den_ne_zero {a : Frac} (ha : a.Pos) : (a.den : ℚ) ≠ 0 := by
  have h : 0 < a.den := ha
  exact_mod_cast h.ne'

theorem val_ofInt (n : Int) : (ofInt n).val = (n : ℚ) := by
  simp [val, ofInt]

theorem val_add {a b : Frac} (ha : a.Pos) (hb : b.Pos) :
    (a.add b).val = a.val + b.val := by
  have h1 := den_ne_zero ha
  have h2 := den_ne_zero hb
  simp only [val, add]
  push_cast
  field_simp

theorem val_sub {a b : Frac} (ha : a.Pos) (hb : b.Pos) :
    (a.sub b).val = a.val - b.val := by
  have h1 := den_ne_zero ha
  have h2 := den_ne_zero hb
  simp only [val, sub]
  push_cast
  field_simp
  ring

theorem val_mul {a b : Frac} (ha : a.Pos) (hb : b.Pos) :
    (a.mul b).val = a.val * b.val := by
  have h1 := den_ne_zero ha
  have h2 := den_ne_zero hb
  simp only [val, mul]
  push_cast
  field_simp

theorem val_neg (a : Frac) : a.neg.val = -a.val := by
  simp [val, neg, neg_div]

theorem val_eq_zero_iff {b : Frac} (hb : b.Pos) : b.val = 0 ↔ b.num = 0 := by
  have h2 := den_ne_zero hb
  simp [val, div_eq_zero_iff, h2]

/-- For a nonzero integer, its sign and absolute value cast to `ℚ`, split by
sign. -/
theorem sign_abs_rat {n : Int} (hn : n ≠ 0) :
    ((n.sign : ℚ) = 1 ∧ ((n.natAbs : ℚ)) = (n : ℚ)) ∨
      ((n.sign : ℚ) = -1 ∧ ((n.natAbs : ℚ)) = -(n : ℚ)) := by
  rcases lt_or_gt_of_ne hn with h | h
  · right
    refine ⟨?_, ?_⟩
    · have : n.sign = -1 := Int.sign_eq_neg_one_iff_neg.mpr h
      rw [this]
      norm_num
    · rw [Int.cast_natAbs]
      have habs : |n| = -n := abs_of_neg h
      exact_mod_cast habs
  · left
    refine ⟨?_, ?_⟩
    · have : n.sign = 1 := Int.sign_eq_one_iff_pos.mpr h
      rw [this]
      norm_num
    · rw [Int.cast_natAbs]
      have habs : |n| = n := abs_of_pos h
      exact_mod_cast habs

theorem val_div {a b : Frac} (ha : a.Pos) (hb : b.Pos) (hb0 : b.num ≠ 0) :
    (a.div b).val = a.val / b.val := by
  have h1 := den_ne_zero ha
  have h2 := den_ne_zero hb
  have h3 : (b.num : ℚ) ≠ 0 := by exact_mod_cast hb0
  simp only [div, hb0, if_false, val]
  push_cast
  rcases sign_abs_rat hb0 with ⟨hs, habs⟩ | ⟨hs, habs⟩ <;>
    · rw [hs, habs]
      field_simp

theorem val_fpow {a : Frac} (ha : a.Pos) (k : Int) (hk : k < 0 → a.num ≠ 0) :
    (a.fpow k).val = a.val ^ k := by
  have h1 := den_ne_zero ha
  by_cases h : 0 ≤ k
  · obtain ⟨t, rfl⟩ : ∃ t : Nat, k = (t : Int) := ⟨k.toNat, by omega⟩
    simp only [fpow, Int.toNat_natCast, if_pos h, val, zpow_natCast]
    push_cast
    rw [div_pow]
  · have hn0 : a.num ≠ 0 := hk (by omega)
    have hq0 : (a.num : ℚ) ≠ 0 := by exact_mod_cast hn0
    obtain ⟨t, rfl⟩ : ∃ t : Nat, k = -(t : Int) := ⟨(-k).toNat, by omega⟩
    simp only [fpow, if_neg h, neg_neg, Int.toNat_natCast, val, zpow_neg, zpow_natCast]
    push_cast
    rw [div_pow]
    rcases sign_abs_rat hn0 with ⟨hs, habs⟩ | ⟨hs, habs⟩ <;> rw [hs, habs, inv_div]
    · rw [one_pow, mul_one]
    · rw [neg_pow (a.num : ℚ)]
      have hm1 : ((-1 : ℚ)) ^ t ≠ 0 := pow_ne_zero _ (by norm_num)
      field_simp
      ring

end Frac

/-- A JavaScript number: an exact finite value, one of the two infinities, or
`NaN`.  `nan` also stands in for the (irrational) value of `Math.pow` at a
non-integer exponent, which the exact embedding cannot represent. -/
inductive JsNum where
  | finite (q : Frac)
  | posInf
  | negInf
  | nan
  deriving DecidableEq, Repr

namespace JsNum

/-- `Number.isFinite`. -/
def isFinite : JsNum → Bool
  | finite _ => true
  | _ => false

/-- The finite value carried by a `JsNum`, if any. -/
def fin? : JsNum → Option Frac
  | finite q => some q
  | _ => none

end JsNum

/-- The five operator strings `'+' '-' '*' '/' '^'` the UI passes to
`setOperator`. -/
inductive Op where
  | add
  | sub
  | mul
  | div
  | pow
  deriving DecidableEq, Repr

/-- The exact value `f` lies strictly inside the IEEE-754 double range,
with the cutoff placed at the ideal range limit `2 ^ 1024` (the true
round-to-nearest boundary differs from it only in the final ulp). -/
def inRange (f : Frac) : Prop := f.num.natAbs < 2 ^ 1024 * f.den

instance : DecidablePred inRange := fun f =>
  inferInstanceAs (Decidable (f.num.natAbs < 2 ^ 1024 * f.den))

/-- The double produced by an arithmetic operation whose exact value is
`f`: a value at or past the top of the double range overflows to the
signed infinity; anything below it is kept exactly. -/
def clampRange (f : Frac) : JsNum :=
  if inRange f then .finite f
  else if f.num < 0 then .negInf else .posInf

theorem clampRange_finite {f : Frac} (h : inRange f) : clampRange f = .finite f :=
  if_pos h

/-- `compute(a, b, op)` (engine.js): the four arithmetic operators plus
exponentiation, in exact rational arithmetic with double-range overflow
modeled by `clampRange`; `'/'` returns `Infinity` when `b === 0`.
`Math.pow` is embedded exactly for integer exponents, with
`Math.pow(0, k)` for negative integer `k` being `Infinity` as in
JavaScript; at a non-integer exponent its value is irrational in general
and has no exact rational representation, so that path is embedded as
`nan`, a marker for results outside the scope of this model (no claim
verdict relies on it).  Rounding of in-range results and subnormal
underflow are idealized away. -/
def compute (a b : Frac) : Op → JsNum
  | .add => clampRange (a.add b)
  | .sub => clampRange (a.sub b)
  | .mul => clampRange (a.mul b)
  | .div => if b.num = 0 then .posInf else clampRange (a.div b)
  | .pow =>
    if (b.den : Int) ∣ b.num then
      let k := b.num / (b.den : Int)
      if a.num = 0 ∧ k < 0 then .posInf else clampRange (a.fpow k)
    else .nan

/-- The character for a decimal digit `d ≤ 9`. -/
def digitChar (d : Nat) : Char := Char.ofNat (48 + d)

/-- The decimal digit string of a natural number, most significant digit
first (the rendering `Number.prototype.toString` uses for integers). -/
def natDigits (n : Nat) : List Char :=
  if _h : n < 10 then [digitChar n]
  else natDigits (n / 10) ++ [digitChar (n % 10)]
  termination_by n
  decreasing_by exact Nat.div_lt_self (by omega) (by omega)

/-- Left-pad a digit string to 12 characters with `'0'` (the fractional part
of `m / 10^12` written with all 12 decimal places). -/
def pad12 (f : Nat) : List Char :=
  List.replicate (12 - (natDigits f).length) '0' ++ natDigits f

/-- Drop trailing `'0'` characters (the effect of the regex
`replace(/(\.\d*?)0+$/, '$1')` on the fractional digits). -/
def stripZerosRight (l : List Char) : List Char :=
  (l.reverse.dropWhile (fun c => c = '0')).reverse

/-- Insert `en-US` thousands separators: a comma before every group of three
digits (counted from the right). -/
def groupComma : List Char → List Char
  | [] => []
  | c :: rest =>
    c :: (if rest.length % 3 = 0 ∧ rest ≠ [] then ',' :: groupComma rest else groupComma rest)

/-- The string `"Error"` returned by `formatNumber` for non-finite input. -/
def errStr : List Char := "Error".toList

/-- Numeric value of a digit string. -/
def digitsVal (l : List Char) : Nat :=
  l.foldl (fun a c => 10 * a + (c.toNat - 48)) 0

/-- Sign of a JavaScript numeric literal: consumed leading `'+'` or `'-'`. -/
def parseSign : List Char → Bool × List Char
  | [] => (false, [])
  | c :: r => if c = '-' then (true, r) else if c = '+' then (false, r) else (false, c :: r)

/-- Exponent part of a JavaScript numeric literal: empty, or
`e`/`E` followed by an optional sign and at least one digit, with nothing
after it.  Returns `none` where `Number()` would return `NaN`. -/
def parseExp : List Char → Option Int
  | [] => some 0
  | c :: r =>
    if c = 'e' ∨ c = 'E' then
      let (neg, r1) := parseSign r
      let ds := r1.takeWhile Char.isDigit
      if ds = [] ∨ r1.dropWhile Char.isDigit ≠ [] then none
      else some (if neg then -(digitsVal ds : Int) else (digitsVal ds : Int))
    else none

/-- `Number(string)` restricted to decimal literals, as a finite value:
`some` the exact value for `[+-]? digits [. digits] [e[+-]digits]` (with at
least one mantissa digit; the empty string is `0`), `none` where `Number()`
yields `NaN`.  The engine never shows the strings (`"Infinity"`, hex, …)
on which `Number()` is finite-or-infinite in other ways. -/
def parseBody (cs : List Char) : Option Frac :=
  let (neg, r1) := parseSign cs
  let d1 := r1.takeWhile Char.isDigit
  let r2 := r1.dropWhile Char.isDigit
  let (d2, r3) :=
    match r2 with
    | c2 :: t =>
      if c2 = '.' then (t.takeWhile Char.isDigit, t.dropWhile Char.isDigit)
      else (([] : List Char), r2)
    | [] => (([] : List Char), r2)
  if d1.length + d2.length = 0 then none
  else
    match parseExp r3 with
    | none => none
    | some e =>
      let mant := (Frac.ofNat (digitsVal (d1 ++ d2))).div (Frac.ofNat (10 ^ d2.length))
      let m2 := mant.mul (Frac.pow10 e)
      some (if neg then m2.neg else m2)

def parseNum (cs : List Char) : Option Frac :=
  match cs with
  | [] => some (Frac.ofNat 0)
  | _ => parseBody cs

/-- `toNumber(s)` (engine.js): `Number(s)` if finite, else `0`. -/
def toNumber (l : List Char) : Frac :=
  match parseNum l with
  | some q => q
  | none => Frac.ofNat 0

/-- `Math.round(q * 1e12)` — exact: `⌊q·10¹² + 1/2⌋` (JavaScript's
`Math.round` rounds halves toward `+∞`). -/
def jsRound (f : Frac) : Int :=
  Int.fdiv (2 * (f.num * 10 ^ 12) + (f.den : Int)) (2 * (f.den : Int))

/-- `s.toString()` uses exponential notation exactly when `|s| ≥ 1e21` or
`0 < |s| < 1e-6`; for `s = m / 10^12` that is this condition on `m`. -/
def sciCond (m : Int) : Prop := 10 ^ 33 ≤ m.natAbs ∨ (m ≠ 0 ∧ m.natAbs < 10 ^ 6)

instance : DecidablePred sciCond := fun m =>
  inferInstanceAs (Decidable (10 ^ 33 ≤ m.natAbs ∨ (m ≠ 0 ∧ m.natAbs < 10 ^ 6)))

/-- Plain-decimal rendering of `m / 10^12`: the result of
`s.toString()` followed by the two trailing-zero-stripping regexes of
`formatNumber` (exact, since `m / 10^12` has a finite decimal expansion). -/
def renderDec (m : Int) : List Char :=
  (if m < 0 then ['-'] else []) ++ natDigits (m.natAbs / 10 ^ 12) ++
    (if m.natAbs % 10 ^ 12 = 0 then []
     else '.' :: stripZerosRight (pad12 (m.natAbs % 10 ^ 12)))

/-- Rounding of `toLocaleString` with `maximumSignificantDigits` 12: keep
the first 12 significant digits, rounding half away from zero (the `Intl`
default `halfExpand`). -/
def localeRound12 (n : Nat) : Nat :=
  let L := (natDigits n).length
  if L ≤ 12 then n
  else
    let p := 10 ^ (L - 12)
    (if p ≤ 2 * (n % p) then n / p + 1 else n / p) * p

/-- `toLocaleString` with locale `en-US` and `maximumSignificantDigits` 12
for `s = m / 10^12`: round to 12 significant digits, then render in plain
decimal with `en-US` thousands separators in the integer part and trailing
fraction zeros dropped. -/
def locale12 (m : Int) : List Char :=
  let n' := localeRound12 m.natAbs
  (if m < 0 then ['-'] else []) ++ groupComma (natDigits (n' / 10 ^ 12)) ++
    (if n' % 10 ^ 12 = 0 then []
     else '.' :: stripZerosRight (pad12 (n' % 10 ^ 12)))

/-- `"Infinity"`: the `toString` rendering of an overflowed product (it
contains neither `e` nor `.`, so `formatNumber` returns it as-is). -/
def infStr : List Char := "Infinity".toList

/-- Overflow of the product `n * 1e12` in `Math.round(n * 1e12) / 1e12`:
in IEEE-754 double arithmetic the product becomes `Infinity` once it
reaches the top of the double range; the exact-rational model places the
cutoff at the ideal range limit `2^1024` (the true round-to-nearest
boundary differs from it only in the final ulp). -/
def overflow12 (q : Frac) : Prop := 2 ^ 1024 * q.den ≤ q.num.natAbs * 10 ^ 12

instance : DecidablePred overflow12 := fun q =>
  inferInstanceAs (Decidable (2 ^ 1024 * q.den ≤ q.num.natAbs * 10 ^ 12))

/-- `formatNumber(n)` (engine.js): `"Error"` for non-finite input; for a
finite `n` so large that `n * 1e12` overflows the double range,
`Math.round(n * 1e12) / 1e12` is `±Infinity`, whose `toString` is
`"Infinity"`/`"-Infinity"` (no exponential marker, nothing stripped), and
that string is returned with the caller's `err` check left false;
otherwise round at the 1e-12 scale, then render with `toString`, going
through `toLocaleString` (`en-US`, 12 significant digits) when `toString`
would use exponential notation, and stripping trailing fraction zeros. -/
def formatNumber : JsNum → List Char
  | .finite q =>
    if overflow12 q then (if q.num < 0 then '-' :: infStr else infStr)
    else
      let m := jsRound q
      if sciCond m then locale12 m else renderDec m
  | .posInf => errStr
  | .negInf => errStr
  | .nan => errStr

/-- The two overflow displays `"Infinity"` and `"-Infinity"`. -/
def infLike (l : List Char) : Prop := l = infStr ∨ l = '-' :: infStr

instance : DecidablePred infLike := fun l =>
  inferInstanceAs (Decidable (l = infStr ∨ l = '-' :: infStr))

/-- The calculator state record (engine.js `createInitialState` shape).
`prev`, `lastOperand` and `rightValue` hold numbers or `null`; the engine
only ever stores finite values in them (a non-finite result sets `error`
and stores `null`), so they are embedded as `Option Frac`. -/
structure CalcState where
  display : List Char
  prev : Option Frac
  op : Option Op
  overwrite : Bool
  lastOp : Option Op
  lastOperand : Option Frac
  error : Bool
  rightLabel : Option (List Char)
  rightValue : Option Frac
  deriving DecidableEq, Repr

/-- `createInitialState()` (engine.js). -/
def createInitialState : CalcState :=
  { display := ['0'], prev := none, op := none, overwrite := false,
    lastOp := none, lastOperand := none, error := false,
    rightLabel := none, rightValue := none }

/-- `inputDigit(state, d)` (engine.js). -/
def inputDigit (s : CalcState) (d : Fin 10) : CalcState :=
  if s.error then createInitialState
  else if s.overwrite = true ∨ s.display = ['0'] then
    { s with display := [digitChar d], overwrite := false,
             rightLabel := none, rightValue := none }
  else if 16 ≤ s.display.length then s
  else
    { s with display := s.display ++ [digitChar d],
             rightLabel := none, rightValue := none }

/-- `inputDot(state)` (engine.js). -/
def inputDot (s : CalcState) : CalcState :=
  if s.error then createInitialState
  else if s.overwrite then
    { s with display := ['0', '.'], overwrite := false,
             rightLabel := none, rightValue := none }
  else if '.' ∈ s.display then s
  else
    { s with display := s.display ++ ['.'],
             rightLabel := none, rightValue := none }

/-- `setOperator(state, op)` (engine.js).  The `state.op && !state.overwrite`
test is the first `match` case; `state.prev ?? toNumber(state.display)` and
`state.rightLabel && state.rightValue != null ? state.rightValue :
toNumber(state.display)` are the `a`/`b` bindings. -/
def setOperator (s : CalcState) (op : Op) : CalcState :=
  if s.error then createInitialState
  else
    match s.op, s.overwrite with
    | some op0, false =>
      let a := s.prev.getD (toNumber s.display)
      let b :=
        match s.rightLabel, s.rightValue with
        | some _, some v => v
        | _, _ => toNumber s.display
      let res := compute a b op0
      let formatted := formatNumber res
      let err := formatted = errStr
      { display := formatted,
        prev := if err then none else res.fin?,
        op := some op,
        overwrite := true,
        lastOp := if err then none else some op0,
        lastOperand := if err then none else some b,
        error := err,
        rightLabel := none,
        rightValue := none }
    | _, _ =>
      { s with
        prev := some
          (match s.rightLabel, s.rightValue with
           | some _, some v => v
           | _, _ => toNumber s.display),
        op := some op,
        overwrite := true,
        rightLabel := none,
        rightValue := none }

/-- `toggleSign(state)` (engine.js).  The `overwrite` and non-`overwrite`
branches of the source perform the same display update. -/
def toggleSign (s : CalcState) : CalcState :=
  if s.error then createInitialState
  else if s.display = ['0'] then s
  else if s.overwrite then
    { s with display :=
        if s.display.head? = some '-' then s.display.drop 1 else '-' :: s.display }
  else
    { s with display :=
        if s.display.head? = some '-' then s.display.drop 1 else '-' :: s.display }

/-- `backspace(state)` (engine.js); `slice(0, -1)` is `dropLast`. -/
def backspace (s : CalcState) : CalcState :=
  if s.error then createInitialState
  else if s.overwrite then { s with display := ['0'], overwrite := false }
  else if s.display.length ≤ 1 ∨ (s.display.length = 2 ∧ s.display.head? = some '-') then
    { s with display := ['0'] }
  else { s with display := s.display.dropLast }

/-- `clearAll()` (engine.js). -/
def clearAll : CalcState := createInitialState

/-- `evaluate(state)` (engine.js).  The four branches, in source order:
operator with staged percent, staged percent alone, operator alone, repeat
of the remembered last operation. -/
def evaluate (s : CalcState) : CalcState :=
  if s.error then createInitialState
  else
    match s.op, s.rightLabel with
    | some op0, some _ =>
      let a := s.prev.getD (toNumber s.display)
      let b :=
        match s.rightValue with
        | some v => v
        | none => toNumber s.display
      let res := compute a b op0
      let formatted := formatNumber res
      let err := formatted = errStr
      { display := formatted,
        prev := if err then none else res.fin?,
        op := none,
        overwrite := true,
        lastOp := if err then none else some op0,
        lastOperand := if err then none else some b,
        error := err,
        rightLabel := none,
        rightValue := none }
    | none, some _ =>
      let b :=
        match s.rightValue with
        | some v => v
        | none => (toNumber s.display).div (Frac.ofNat 100)
      let formatted := formatNumber (.finite b)
      let err := formatted = errStr
      { display := formatted,
        prev := if err then none else some b,
        op := none,
        overwrite := true,
        lastOp := none,
        lastOperand := none,
        error := err,
        rightLabel := none,
        rightValue := none }
    | some op0, none =>
      let a := s.prev.getD (toNumber s.display)
      let b :=
        match s.rightLabel, s.rightValue with
        | some _, some v => v
        | _, _ => toNumber s.display
      let res := compute a b op0
      let formatted := formatNumber res
      let err := formatted = errStr
      { display := formatted,
        prev := if err then none else res.fin?,
        op := none,
        overwrite := true,
        lastOp := if err then none else some op0,
        lastOperand := if err then none else some b,
        error := err,
        rightLabel := none,
        rightValue := none }
    | none, none =>
      match s.lastOp, s.lastOperand with
      | some lop, some lod =>
        let a := toNumber s.display
        let res := compute a lod lop
        let formatted := formatNumber res
        let err := formatted = errStr
        { display := formatted,
          prev := if err then none else res.fin?,
          op := none,
          overwrite := true,
          lastOp := if err then none else some lop,
          lastOperand := if err then none else some lod,
          error := err,
          rightLabel := none,
          rightValue := none }
      | _, _ => s

/-- The staged percent value `val` computed by `percent(state)` (engine.js):
multiply/divide operators use the literal percent `cur / 100`; any other
pending operator uses `(prev ?? toNumber(display)) * cur / 100`; no pending
operator uses `cur / 100`. -/
def percentValue (s : CalcState) : Frac :=
  let cur := toNumber s.display
  match s.op with
  | some op0 =>
    if op0 = Op.mul ∨ op0 = Op.div then cur.div (Frac.ofNat 100)
    else
      let base :=
        match s.prev with
        | some p => p
        | none => toNumber s.display
      (base.mul cur).div (Frac.ofNat 100)
  | none => cur.div (Frac.ofNat 100)

/-- `percent(state)` (engine.js): the display is kept as-is; the computed
percent value is staged in `rightLabel`/`rightValue`. -/
def percent (s : CalcState) : CalcState :=
  if s.error then createInitialState
  else
    let cur := toNumber s.display
    let v := percentValue s
    let formatted := formatNumber (.finite v)
    let err := formatted = errStr
    { s with
      display := s.display,
      overwrite := true,
      error := err,
      rightLabel := some (formatNumber (.finite cur) ++ ['%']),
      rightValue := some v }

/-- The record returned by `preview(state)` (engine.js); `kind` is the
discriminator string (`"binary"`, `"percent"`, `"percentUnary"`, `"repeat"`), `bLabel` is present only in the percent kinds and `a` is
`null` only for `"percentUnary"`. -/
structure PreviewEntry where
  a : Option Frac
  b : Frac
  bLabel : Option (List Char)
  op : Option Op
  result : JsNum
  resultStr : List Char
  error : Bool
  kind : List Char
  deriving DecidableEq, Repr

/-- `preview(state)` (engine.js), in source branch order. -/
def preview (s : CalcState) : Option PreviewEntry :=
  match s.op with
  | some op0 =>
    match s.rightLabel with
    | some lbl =>
      let a := s.prev.getD (toNumber s.display)
      let b :=
        match s.rightValue with
        | some v => v
        | none => toNumber s.display
      let str := formatNumber (.finite b)
      let err := str = errStr
      some { a := some a, b := b, bLabel := some lbl, op := some op0,
             result := .finite b, resultStr := str, error := err,
             kind := "percent".toList }
    | none =>
      let a := s.prev.getD (toNumber s.display)
      let b := toNumber s.display
      let res := compute a b op0
      let str := formatNumber res
      let err := str = errStr
      some { a := some a, b := b, bLabel := none, op := some op0,
             result := res, resultStr := str, error := err,
             kind := "binary".toList }
  | none =>
    match s.rightLabel with
    | some lbl =>
      let b :=
        match s.rightValue with
        | some v => v
        | none => (toNumber s.display).div (Frac.ofNat 100)
      let str := formatNumber (.finite b)
      let err := str = errStr
      some { a := none, b := b, bLabel := some lbl, op := none,
             result := .finite b, resultStr := str, error := err,
             kind := "percentUnary".toList }
    | none =>
      match s.lastOp, s.lastOperand with
      | some lop, some lod =>
        let a := toNumber s.display
        let res := compute a lod lop
        let str := formatNumber res
        let err := str = errStr
        some { a := some a, b := lod, bLabel := none, op := some lop,
               result := res, resultStr := str, error := err,
               kind := "repeat".toList }
      | _, _ => none

/-- The states reachable from `createInitialState` by the engine's
transition functions. -/
inductive Reachable : CalcState → Prop where
  | init : Reachable createInitialState
  | digit {s} (d : Fin 10) : Reachable s → Reachable (inputDigit s d)
  | dot {s} : Reachable s → Reachable (inputDot s)
  | setOp {s} (op : Op) : Reachable s → Reachable (setOperator s op)
  | sign {s} : Reachable s → Reachable (toggleSign s)
  | back {s} : Reachable s → Reachable (backspace s)
  | clear : Reachable clearAll
  | evalStep {s} : Reachable s → Reachable (evaluate s)
  | pct {s} : Reachable s → Reachable (percent s)

/-- Shape of the text after an optional leading sign and a first digit:
digits, at most one decimal point (tracked by `dotSeen`), and `en-US`
thousands separators. -/
def goodTail : List Char → Bool → Bool
  | [], _ => true
  | c :: r, dotSeen =>
    if c.isDigit then goodTail r dotSeen
    else if c = '.' then !dotSeen && goodTail r true
    else if c = ',' then goodTail r dotSeen
    else false

/-- Shape of every display the engine shows in a non-error state: an
optional leading `'-'`, then a digit, then digits, at most one `'.'`, and
possibly `en-US` thousands separators. -/
def good : List Char → Bool
  | [] => false
  | c :: r =>
    if c = '-' then
      match r with
      | [] => false
      | c2 :: r2 => c2.isDigit && goodTail r2 false
    else c.isDigit && goodTail r false

theorem goodTail_append_right {A B : List Char} {d : Bool}
    (hA : ∀ c ∈ A, c.isDigit = true ∨ c = ',') (hB : goodTail B d = true) :
    goodTail (A ++ B) d = true := by
  induction A with
  | nil => simpa using hB
  | cons a A ih =>
    have ha := hA a (by simp)
    have hrest : ∀ c ∈ A, c.isDigit = true ∨ c = ',' := fun c hc => hA c (by simp [hc])
    rcases ha with ha | ha
    · simpa [goodTail, ha] using ih hrest
    · subst ha
      simpa [goodTail] using ih hrest

theorem goodTail_of_all_digit {A : List Char} {d : Bool}
    (hA : ∀ c ∈ A, c.isDigit = true) : goodTail A d = true := by
  have h0 : goodTail ([] : List Char) d = true := rfl
  have h1 := goodTail_append_right (fun c hc => Or.inl (hA c hc)) h0
  rw [List.append_nil] at h1
  exact h1

theorem goodTail_push_digit {l : List Char} {d : Bool} {c : Char}
    (hc : c.isDigit = true) (h : goodTail l d = true) :
    goodTail (l ++ [c]) d = true := by
  induction l generalizing d with
  | nil => simp [goodTail, hc]
  | cons a l ih =>
    simp only [goodTail, List.cons_append] at h ⊢
    by_cases h1 : a.isDigit = true
    · rw [if_pos h1] at h ⊢
      exact ih h
    · rw [if_neg h1] at h ⊢
      by_cases h2 : a = '.'
      · rw [if_pos h2] at h ⊢
        rcases Bool.and_eq_true_iff.mp h with ⟨hd1, hd2⟩
        exact Bool.and_eq_true_iff.mpr ⟨hd1, ih hd2⟩
      · rw [if_neg h2] at h ⊢
        by_cases h3 : a = ','
        · rw [if_pos h3] at h ⊢
          exact ih h
        · rw [if_neg h3] at h
          exact absurd h (by simp)

theorem goodTail_push_dot {l : List Char}
    (h : goodTail l false = true) (hd : '.' ∉ l) :
    goodTail (l ++ ['.']) false = true := by
  induction l with
  | nil => simp [goodTail]
  | cons a l ih =>
    have hd1 : a ≠ '.' := fun hc => hd (by simp [hc])
    have hd2 : '.' ∉ l := fun hc => hd (by simp [hc])
    simp only [goodTail, List.cons_append] at h ⊢
    by_cases h1 : a.isDigit = true
    · rw [if_pos h1] at h ⊢
      exact ih h hd2
    · rw [if_neg h1] at h ⊢
      rw [if_neg hd1] at h ⊢
      by_cases h3 : a = ','
      · rw [if_pos h3] at h ⊢
        exact ih h hd2
      · rw [if_neg h3] at h
        exact absurd h (by simp)

theorem goodTail_dropLast {l : List Char} {d : Bool}
    (h : goodTail l d = true) : goodTail l.dropLast d = true := by
  induction l generalizing d with
  | nil => simp [goodTail]
  | cons a l ih =>
    cases l with
    | nil => simp [goodTail]
    | cons b r =>
      have hstep : (a :: b :: r).dropLast = a :: (b :: r).dropLast := rfl
      rw [hstep]
      simp only [goodTail] at h ⊢
      by_cases h1 : a.isDigit = true
      · rw [if_pos h1] at h ⊢
        exact ih h
      · rw [if_neg h1] at h ⊢
        by_cases h2 : a = '.'
        · rw [if_pos h2] at h ⊢
          rcases Bool.and_eq_true_iff.mp h with ⟨hd1, hd2⟩
          exact Bool.and_eq_true_iff.mpr ⟨hd1, ih hd2⟩
        · rw [if_neg h2] at h ⊢
          by_cases h3 : a = ','
          · rw [if_pos h3] at h ⊢
            exact ih h
          · rw [if_neg h3] at h
            exact absurd h (by simp)

theorem dash_not_digit : ('-' : Char).isDigit = false := by decide

theorem good_cons_digit {c : Char} {r : List Char}
    (hc : c.isDigit = true) (h : goodTail r false = true) : good (c :: r) = true := by
  have hne : c ≠ '-' := by
    intro he
    rw [he, dash_not_digit] at hc
    exact absurd hc (by simp)
  simp [good, hne, hc, h]

theorem good_dash_cons {c : Char} {r : List Char}
    (hc : c.isDigit = true) (h : goodTail r false = true) :
    good ('-' :: c :: r) = true := by
  simp [good, hc, h]

/-- Inversion: a good display is a digit-headed tail, optionally preceded by
`'-'`. -/
theorem good_inv {l : List Char} (h : good l = true) :
    (∃ c r, l = c :: r ∧ c ≠ '-' ∧ c.isDigit = true ∧ goodTail r false = true) ∨
      (∃ c r, l = '-' :: c :: r ∧ c.isDigit = true ∧ goodTail r false = true) := by
  match l with
  | [] => exact absurd h (by simp [good])
  | c :: r =>
    by_cases hc : c = '-'
    · subst hc
      match r with
      | [] => exact absurd h (by simp [good])
      | c2 :: r2 =>
        right
        refine ⟨c2, r2, rfl, ?_, ?_⟩ <;>
          · simp only [good, if_pos rfl] at h
            rcases Bool.and_eq_true_iff.mp h with ⟨h1, h2⟩
            first
              | exact h1
              | exact h2
    · left
      simp only [good, if_neg hc] at h
      rcases Bool.and_eq_true_iff.mp h with ⟨h1, h2⟩
      exact ⟨c, r, rfl, hc, h1, h2⟩

theorem good_push_digit {l : List Char} {c : Char}
    (h : good l = true) (hc : c.isDigit = true) : good (l ++ [c]) = true := by
  rcases good_inv h with ⟨c0, r, rfl, hne, h1, h2⟩ | ⟨c0, r, rfl, h1, h2⟩
  · exact good_cons_digit h1 (goodTail_push_digit hc h2)
  · exact good_dash_cons h1 (goodTail_push_digit hc h2)

theorem good_push_dot {l : List Char}
    (h : good l = true) (hd : '.' ∉ l) : good (l ++ ['.']) = true := by
  rcases good_inv h with ⟨c0, r, rfl, hne, h1, h2⟩ | ⟨c0, r, rfl, h1, h2⟩
  · exact good_cons_digit h1 (goodTail_push_dot h2 (fun hm => hd (by simp [hm])))
  · exact good_dash_cons h1 (goodTail_push_dot h2 (fun hm => hd (by simp [hm])))

theorem good_drop_dash {l : List Char}
    (h : good l = true) (hd : l.head? = some '-') : good (l.drop 1) = true := by
  rcases good_inv h with ⟨c0, r, rfl, hne, h1, h2⟩ | ⟨c0, r, rfl, h1, h2⟩
  · exact absurd (by simpa using hd) hne
  · simpa using good_cons_digit h1 h2

theorem good_cons_dash {l : List Char}
    (h : good l = true) (hd : l.head? ≠ some '-') : good ('-' :: l) = true := by
  rcases good_inv h with ⟨c0, r, rfl, hne, h1, h2⟩ | ⟨c0, r, rfl, h1, h2⟩
  · exact good_dash_cons h1 h2
  · exact absurd (by simp) hd

theorem good_dropLast {l : List Char}
    (h : good l = true) (hlen : 2 ≤ l.length)
    (hguard : ¬(l.length = 2 ∧ l.head? = some '-')) : good l.dropLast = true := by
  rcases good_inv h with ⟨c0, r, rfl, hne, h1, h2⟩ | ⟨c0, r, rfl, h1, h2⟩
  · match r with
    | [] => exact absurd hlen (by simp)
    | b :: r2 =>
      have : (c0 :: b :: r2).dropLast = c0 :: (b :: r2).dropLast := rfl
      rw [this]
      exact good_cons_digit h1 (goodTail_dropLast h2)
  · match r with
    | [] => exact absurd ⟨by simp, by simp⟩ hguard
    | b :: r2 =>
      have : ('-' :: c0 :: b :: r2).dropLast = '-' :: c0 :: (b :: r2).dropLast := rfl
      rw [this]
      exact good_dash_cons h1 (goodTail_dropLast h2)

theorem digitChar_isDigit {n : Nat} (h : n < 10) : (digitChar n).isDigit = true := by
  interval_cases n <;> decide

theorem natDigits_ne_nil (n : Nat) : natDigits n ≠ [] := by
  rw [natDigits]
  split
  · simp
  · simp

theorem natDigits_all_digit (n : Nat) : ∀ c ∈ natDigits n, c.isDigit = true := by
  induction n using Nat.strong_induction_on with
  | _ n ih =>
    rw [natDigits]
    split
    · rename_i h
      intro c hc
      simp only [List.mem_singleton] at hc
      subst hc
      exact digitChar_isDigit h
    · rename_i h
      intro c hc
      rcases List.mem_append.mp hc with hc | hc
      · exact ih (n / 10) (Nat.div_lt_self (by omega) (by omega)) c hc
      · simp only [List.mem_singleton] at hc
        subst hc
        exact digitChar_isDigit (Nat.mod_lt _ (by omega))

theorem pad12_all_digit (f : Nat) : ∀ c ∈ pad12 f, c.isDigit = true := by
  intro c hc
  rcases List.mem_append.mp hc with hc | hc
  · rw [List.eq_of_mem_replicate hc]
    decide
  · exact natDigits_all_digit f c hc

theorem stripZerosRight_subset {l : List Char} : ∀ c ∈ stripZerosRight l, c ∈ l := by
  intro c hc
  simp only [stripZerosRight, List.mem_reverse] at hc
  exact (List.mem_reverse).mp ((List.dropWhile_sublist _).mem hc)

theorem groupComma_subset {l : List Char} :
    ∀ c ∈ groupComma l, c ∈ l ∨ c = ',' := by
  induction l with
  | nil => simp [groupComma]
  | cons a l ih =>
    intro c hc
    simp only [groupComma] at hc
    rcases List.mem_cons.mp hc with hc | hc
    · exact Or.inl (by simp [hc])
    · split at hc
      · rcases List.mem_cons.mp hc with hc | hc
        · exact Or.inr hc
        · rcases ih c hc with h | h
          · exact Or.inl (by simp [h])
          · exact Or.inr h
      · rcases ih c hc with h | h
        · exact Or.inl (by simp [h])
        · exact Or.inr h

theorem groupComma_cons (c : Char) (r : List Char) :
    groupComma (c :: r) =
      c :: (if r.length % 3 = 0 ∧ r ≠ [] then ',' :: groupComma r else groupComma r) := rfl

theorem dot_not_digit : ('.' : Char).isDigit = false := by decide

theorem goodTail_frac {S : List Char} (hS : ∀ c ∈ S, c.isDigit = true) :
    goodTail ('.' :: S) false = true := by
  have h := goodTail_of_all_digit (d := true) hS
  simp [goodTail, dot_not_digit, h]

/-- The fractional block of the renders: empty, or a dot followed by
digits. -/
theorem goodTail_fracPart (f : Nat) :
    goodTail (if f % 10 ^ 12 = 0 then []
              else '.' :: stripZerosRight (pad12 (f % 10 ^ 12))) false = true := by
  split
  · rfl
  · exact goodTail_frac (fun c hc => pad12_all_digit _ c (stripZerosRight_subset c hc))

theorem good_assemble {c : Char} {rest F : List Char} (P : Prop) [Decidable P]
    (hc : c.isDigit = true)
    (hrest : ∀ x ∈ rest, x.isDigit = true ∨ x = ',')
    (hF : goodTail F false = true) :
    good ((if P then ['-'] else []) ++ (c :: rest) ++ F) = true := by
  have htail := goodTail_append_right hrest hF
  split
  · simpa using good_dash_cons hc htail
  · simpa using good_cons_digit hc htail

theorem good_renderDec (m : Int) : good (renderDec m) = true := by
  unfold renderDec
  obtain ⟨c, rest, hD⟩ := List.exists_cons_of_ne_nil (natDigits_ne_nil (m.natAbs / 10 ^ 12))
  rw [hD]
  refine good_assemble _ ?_ ?_ (goodTail_fracPart m.natAbs)
  · exact natDigits_all_digit (m.natAbs / 10 ^ 12) c (by rw [hD]; exact List.mem_cons_self c rest)
  · intro x hx
    exact Or.inl (natDigits_all_digit (m.natAbs / 10 ^ 12) x
      (by rw [hD]; exact List.mem_cons_of_mem c hx))

theorem good_localeBody (m : Int) (w : Nat) :
    good ((if m < 0 then ['-'] else []) ++ groupComma (natDigits (w / 10 ^ 12)) ++
      (if w % 10 ^ 12 = 0 then []
       else '.' :: stripZerosRight (pad12 (w % 10 ^ 12)))) = true := by
  obtain ⟨c, rest, hD⟩ := List.exists_cons_of_ne_nil (natDigits_ne_nil (w / 10 ^ 12))
  have hc : c.isDigit = true :=
    natDigits_all_digit (w / 10 ^ 12) c (by rw [hD]; exact List.mem_cons_self c rest)
  have hX : ∀ x ∈ (if rest.length % 3 = 0 ∧ rest ≠ [] then ',' :: groupComma rest
                   else groupComma rest), x.isDigit = true ∨ x = ',' := by
    intro x hx
    have hx2 : x ∈ groupComma (natDigits (w / 10 ^ 12)) := by
      rw [hD, groupComma_cons]
      exact List.mem_cons_of_mem _ hx
    rcases groupComma_subset x hx2 with h | h
    · exact Or.inl (natDigits_all_digit (w / 10 ^ 12) x h)
    · exact Or.inr h
  rw [hD, groupComma_cons]
  exact good_assemble _ hc hX (goodTail_fracPart w)

theorem good_locale12 (m : Int) : good (locale12 m) = true :=
  good_localeBody m (localeRound12 m.natAbs)

/-- `formatNumber` of a finite value is either a well-shaped decimal/comma
string or one of the two overflow strings. -/
theorem formatNumber_finite_cases (q : Frac) :
    good (formatNumber (.finite q)) = true ∨ infLike (formatNumber (.finite q)) := by
  show good (if overflow12 q then (if q.num < 0 then '-' :: infStr else infStr)
      else (if sciCond (jsRound q) then locale12 (jsRound q) else renderDec (jsRound q))) = true ∨
    infLike (if overflow12 q then (if q.num < 0 then '-' :: infStr else infStr)
      else (if sciCond (jsRound q) then locale12 (jsRound q) else renderDec (jsRound q)))
  by_cases ho : overflow12 q
  · rw [if_pos ho]
    right
    by_cases hs : q.num < 0
    · rw [if_pos hs]
      exact Or.inr rfl
    · rw [if_neg hs]
      exact Or.inl rfl
  · rw [if_neg ho]
    left
    split
    · exact good_locale12 _
    · exact good_renderDec _

/-- `formatNumber` on a finite value below the overflow cutoff takes the
round-and-render path. -/
theorem formatNumber_finite_nonoverflow (q : Frac) (h : ¬ overflow12 q) :
    formatNumber (.finite q) =
      (if sciCond (jsRound q) then locale12 (jsRound q) else renderDec (jsRound q)) := by
  show (if overflow12 q then (if q.num < 0 then '-' :: infStr else infStr)
      else (if sciCond (jsRound q) then locale12 (jsRound q) else renderDec (jsRound q))) =
    (if sciCond (jsRound q) then locale12 (jsRound q) else renderDec (jsRound q))
  exact if_neg h

/-- `formatNumber` on a finite value past the overflow cutoff returns the
signed `"Infinity"` string. -/
theorem formatNumber_finite_overflow (q : Frac) (h : overflow12 q) :
    formatNumber (.finite q) = (if q.num < 0 then '-' :: infStr else infStr) := by
  show (if overflow12 q then (if q.num < 0 then '-' :: infStr else infStr)
      else (if sciCond (jsRound q) then locale12 (jsRound q) else renderDec (jsRound q))) =
    (if q.num < 0 then '-' :: infStr else infStr)
  exact if_pos h

theorem good_errStr : good errStr = false := by decide

theorem formatNumber_finite_ne_errStr (q : Frac) :
    formatNumber (.finite q) ≠ errStr := by
  intro h
  rcases formatNumber_finite_cases q with hg | hg
  · rw [h, good_errStr] at hg
    exact absurd hg (by simp)
  · rcases hg with hg | hg <;> rw [h] at hg <;> exact absurd hg (by decide)

/-- `formatNumber` returns `"Error"` exactly on non-finite input. -/
theorem formatNumber_eq_errStr_iff (res : JsNum) :
    formatNumber res = errStr ↔ res.isFinite = false := by
  cases res with
  | finite q => simp [formatNumber_finite_ne_errStr q, JsNum.isFinite]
  | posInf => simp [formatNumber, JsNum.isFinite]
  | negInf => simp [formatNumber, JsNum.isFinite]
  | nan => simp [formatNumber, JsNum.isFinite]

theorem digit_ne_dash {c : Char} (h : c.isDigit = true) : c ≠ '-' := by
  intro he
  rw [he] at h
  exact absurd h (by decide)

theorem digit_ne_plus {c : Char} (h : c.isDigit = true) : c ≠ '+' := by
  intro he
  rw [he] at h
  exact absurd h (by decide)

theorem takeWhile_all_append (p : Char → Bool) {A B : List Char}
    (hA : ∀ c ∈ A, p c = true) (hB : ∀ c, B.head? = some c → p c = false) :
    (A ++ B).takeWhile p = A ∧ (A ++ B).dropWhile p = B := by
  induction A with
  | nil =>
    cases B with
    | nil => simp
    | cons b B' =>
      have := hB b rfl
      simp [List.takeWhile_cons, List.dropWhile_cons, this]
  | cons a A' ih =>
    have ha := hA a (by simp)
    have ih2 := ih (fun c hc => hA c (by simp [hc]))
    simp [List.takeWhile_cons, List.dropWhile_cons, ha, ih2.1, ih2.2]

theorem takeWhile_all (p : Char → Bool) {C : List Char}
    (hC : ∀ c ∈ C, p c = true) :
    C.takeWhile p = C ∧ C.dropWhile p = [] := by
  have := takeWhile_all_append p hC (B := []) (fun c hc => by simp at hc)
  simpa using this

theorem goodTail_true_all_digit {C : List Char}
    (h : goodTail C true = true) (hnc : ',' ∉ C) : ∀ c ∈ C, c.isDigit = true := by
  induction C with
  | nil => simp
  | cons a r ih =>
    simp only [goodTail] at h
    by_cases h1 : a.isDigit = true
    · rw [if_pos h1] at h
      intro c hc
      rcases List.mem_cons.mp hc with rfl | hc
      · exact h1
      · exact ih h (fun hm => hnc (by simp [hm])) c hc
    · rw [if_neg h1] at h
      by_cases h2 : a = '.'
      · rw [if_pos h2] at h
        exact absurd h (by simp)
      · rw [if_neg h2] at h
        by_cases h3 : a = ','
        · exact absurd h3.symm (fun hm => hnc (by simp [hm.symm]))
        · rw [if_neg h3] at h
          exact absurd h (by simp)

theorem goodTail_split {r : List Char}
    (h : goodTail r false = true) (hnc : ',' ∉ r) :
    ∃ A B, r = A ++ B ∧ (∀ c ∈ A, c.isDigit = true) ∧
      (B = [] ∨ ∃ C, B = '.' :: C ∧ ∀ c ∈ C, c.isDigit = true) := by
  induction r with
  | nil => exact ⟨[], [], rfl, by simp, Or.inl rfl⟩
  | cons a r' ih =>
    simp only [goodTail] at h
    by_cases h1 : a.isDigit = true
    · rw [if_pos h1] at h
      obtain ⟨A, B, rfl, hA, hB⟩ := ih h (fun hm => hnc (by simp [hm]))
      exact ⟨a :: A, B, rfl, by
        intro c hc
        rcases List.mem_cons.mp hc with rfl | hc
        · exact h1
        · exact hA c hc, hB⟩
    · rw [if_neg h1] at h
      by_cases h2 : a = '.'
      · rw [if_pos h2] at h
        simp only [Bool.not_false, Bool.true_and] at h
        subst h2
        refine ⟨[], '.' :: r', rfl, by simp, Or.inr ⟨r', rfl, ?_⟩⟩
        exact goodTail_true_all_digit h (fun hm => hnc (by simp [hm]))
      · by_cases h3 : a = ','
        · subst h3
          exact absurd (List.mem_cons_self ',' r') hnc
        · rw [if_neg h2, if_neg h3] at h
          exact absurd h (by simp)

theorem parseBody_isSome {cs : List Char} {nf : Bool} {c : Char} {r : List Char}
    (hps : parseSign cs = (nf, c :: r))
    (hcd : c.isDigit = true) (hr : goodTail r false = true) (hnc : ',' ∉ r) :
    (parseBody cs).isSome = true := by
  obtain ⟨A, B, rfl, hA, hB⟩ := goodTail_split hr hnc
  have hAll : ∀ x ∈ c :: A, x.isDigit = true := by
    intro x hx
    rcases List.mem_cons.mp hx with rfl | hx
    · exact hcd
    · exact hA x hx
  have hBhead : ∀ x, B.head? = some x → x.isDigit = false := by
    intro x hx
    rcases hB with rfl | ⟨C, rfl, hC⟩
    · simp at hx
    · simp only [List.head?_cons, Option.some_inj] at hx
      rw [← hx]
      exact dot_not_digit
  have htw := takeWhile_all_append Char.isDigit hAll hBhead
  have hshape : c :: (A ++ B) = (c :: A) ++ B := rfl
  simp only [parseBody, hps, hshape, htw.1, htw.2]
  rcases hB with rfl | ⟨C, rfl, hC⟩
  · simp [parseExp]
  · have htwC := takeWhile_all Char.isDigit hC
    simp [htwC.1, htwC.2, parseExp]

/-- `Number()` succeeds (with a finite value) on every well-shaped display
that carries no thousands separator. -/
theorem parseNum_good_isSome {cs : List Char}
    (h : good cs = true) (hnc : ',' ∉ cs) : (parseNum cs).isSome = true := by
  rcases good_inv h with ⟨c, r, rfl, hne, h1, h2⟩ | ⟨c, r, rfl, h1, h2⟩
  · have hps : parseSign (c :: r) = (false, c :: r) := by
      simp [parseSign, hne, digit_ne_plus h1]
    have hpn : parseNum (c :: r) = parseBody (c :: r) := rfl
    rw [hpn]
    exact parseBody_isSome hps h1 h2 (fun hm => hnc (by simp [hm]))
  · have hps : parseSign ('-' :: c :: r) = (true, c :: r) := by simp [parseSign]
    have hpn : parseNum ('-' :: c :: r) = parseBody ('-' :: c :: r) := rfl
    rw [hpn]
    exact parseBody_isSome hps h1 h2 (fun hm => hnc (by simp [hm]))

/-- State invariant carried through the reachability induction: outside of
the error state, the display has the well-formed shape `good` or is an
overflow `"Infinity"`/`"-Infinity"` string; the overflow displays come only
from result records, which set `overwrite`. -/
def InvS (s : CalcState) : Prop :=
  s.error = true ∨ good s.display = true ∨ (infLike s.display ∧ s.overwrite = true)

theorem good_zero : good ['0'] = true := by decide

theorem inv_initial : InvS createInitialState := Or.inr (Or.inl good_zero)

theorem fmt_inv (res : JsNum) :
    formatNumber res = errStr ∨ good (formatNumber res) = true ∨
      infLike (formatNumber res) := by
  cases res with
  | finite q =>
    rcases formatNumber_finite_cases q with h | h
    · exact Or.inr (Or.inl h)
    · exact Or.inr (Or.inr h)
  | posInf => exact Or.inl rfl
  | negInf => exact Or.inl rfl
  | nan => exact Or.inl rfl

theorem inv_inputDigit (s : CalcState) (d : Fin 10) (h : InvS s) :
    InvS (inputDigit s d) := by
  by_cases he : s.error = true
  · unfold inputDigit
    rw [if_pos he]
    exact inv_initial
  · rcases h with h | hg | ⟨hinf, hov⟩
    · exact absurd h he
    · unfold inputDigit
      rw [if_neg he]
      by_cases h1 : s.overwrite = true ∨ s.display = ['0']
      · rw [if_pos h1]
        exact Or.inr (Or.inl (good_cons_digit (digitChar_isDigit d.isLt) rfl))
      · rw [if_neg h1]
        by_cases h2 : 16 ≤ s.display.length
        · rw [if_pos h2]
          exact Or.inr (Or.inl hg)
        · rw [if_neg h2]
          exact Or.inr (Or.inl (good_push_digit hg (digitChar_isDigit d.isLt)))
    · unfold inputDigit
      rw [if_neg he, if_pos (Or.inl hov)]
      exact Or.inr (Or.inl (good_cons_digit (digitChar_isDigit d.isLt) rfl))

theorem inv_inputDot (s : CalcState) (h : InvS s) : InvS (inputDot s) := by
  by_cases he : s.error = true
  · unfold inputDot
    rw [if_pos he]
    exact inv_initial
  · rcases h with h | hg | ⟨hinf, hov⟩
    · exact absurd h he
    · unfold inputDot
      rw [if_neg he]
      by_cases h1 : s.overwrite = true
      · rw [if_pos h1]
        exact Or.inr (Or.inl (show good ['0', '.'] = true by decide))
      · rw [if_neg h1]
        by_cases h2 : '.' ∈ s.display
        · rw [if_pos h2]
          exact Or.inr (Or.inl hg)
        · rw [if_neg h2]
          exact Or.inr (Or.inl (good_push_dot hg h2))
    · unfold inputDot
      rw [if_neg he, if_pos hov]
      exact Or.inr (Or.inl (show good ['0', '.'] = true by decide))

theorem inv_toggleSign (s : CalcState) (h : InvS s) : InvS (toggleSign s) := by
  by_cases he : s.error = true
  · unfold toggleSign
    rw [if_pos he]
    exact inv_initial
  · rcases h with h | hg | ⟨hinf, hov⟩
    · exact absurd h he
    · unfold toggleSign
      rw [if_neg he]
      by_cases h1 : s.display = ['0']
      · rw [if_pos h1]
        exact Or.inr (Or.inl hg)
      · rw [if_neg h1]
        by_cases h2 : s.overwrite = true
        · rw [if_pos h2]
          by_cases h3 : s.display.head? = some '-'
          · rw [if_pos h3]
            exact Or.inr (Or.inl (good_drop_dash hg h3))
          · rw [if_neg h3]
            exact Or.inr (Or.inl (good_cons_dash hg h3))
        · rw [if_neg h2]
          by_cases h3 : s.display.head? = some '-'
          · rw [if_pos h3]
            exact Or.inr (Or.inl (good_drop_dash hg h3))
          · rw [if_neg h3]
            exact Or.inr (Or.inl (good_cons_dash hg h3))
    · unfold toggleSign
      rw [if_neg he]
      rcases hinf with hd | hd
      · rw [if_neg (show ¬ s.display = ['0'] by rw [hd]; decide),
          if_pos hov, if_neg (show ¬ s.display.head? = some '-' by rw [hd]; decide)]
        exact Or.inr (Or.inr ⟨Or.inr (by rw [hd]), hov⟩)
      · rw [if_neg (show ¬ s.display = ['0'] by rw [hd]; decide),
          if_pos hov, if_pos (show s.display.head? = some '-' by rw [hd]; rfl)]
        exact Or.inr (Or.inr ⟨Or.inl (by rw [hd]; rfl), hov⟩)

theorem inv_backspace (s : CalcState) (h : InvS s) : InvS (backspace s) := by
  by_cases he : s.error = true
  · unfold backspace
    rw [if_pos he]
    exact inv_initial
  · rcases h with h | hg | ⟨hinf, hov⟩
    · exact absurd h he
    · unfold backspace
      rw [if_neg he]
      by_cases h1 : s.overwrite = true
      · rw [if_pos h1]
        exact Or.inr (Or.inl good_zero)
      · rw [if_neg h1]
        by_cases h2 : s.display.length ≤ 1 ∨ (s.display.length = 2 ∧ s.display.head? = some '-')
        · rw [if_pos h2]
          exact Or.inr (Or.inl good_zero)
        · rw [if_neg h2]
          push_neg at h2
          exact Or.inr (Or.inl (good_dropLast hg (by omega) (by
            intro hcon
            exact absurd (h2.2 hcon.1) (by simp [hcon.2]))))
    · unfold backspace
      rw [if_neg he, if_pos hov]
      exact Or.inr (Or.inl good_zero)

theorem inv_clearAll : InvS clearAll := inv_initial

/-- The common result-record of the compute branches of `setOperator` and
`evaluate` satisfies the invariant: the display is `"Error"` (with the
error flag set), a well-shaped number string, or an overflow `"Infinity"`
string (and those records always set `overwrite`). -/
theorem inv_resultState (res : JsNum) :
    (decide (formatNumber res = errStr)) = true ∨ good (formatNumber res) = true ∨
      (infLike (formatNumber res) ∧ true = true) := by
  rcases fmt_inv res with h | h | h
  · exact Or.inl (decide_eq_true h)
  · exact Or.inr (Or.inl h)
  · exact Or.inr (Or.inr ⟨h, rfl⟩)

theorem inv_setOperator (s : CalcState) (op : Op) (h : InvS s) :
    InvS (setOperator s op) := by
  by_cases he : s.error = true
  · unfold setOperator
    rw [if_pos he]
    exact inv_initial
  · rcases h with h | hg | ⟨hinf, hov⟩
    · exact absurd h he
    · unfold setOperator
      rw [if_neg he]
      rcases hop : s.op with _ | op0 <;> rcases hov : s.overwrite with _ | _ <;>
        simp only [hop, hov]
      · exact Or.inr (Or.inl hg)
      · exact Or.inr (Or.inl hg)
      · exact inv_resultState _
      · exact Or.inr (Or.inl hg)
    · unfold setOperator
      rw [if_neg he]
      rcases hop : s.op with _ | op0 <;> simp only [hop, hov]
      · exact Or.inr (Or.inr ⟨hinf, rfl⟩)
      · exact Or.inr (Or.inr ⟨hinf, rfl⟩)

theorem inv_evaluate (s : CalcState) (h : InvS s) : InvS (evaluate s) := by
  by_cases he : s.error = true
  · unfold evaluate
    rw [if_pos he]
    exact inv_initial
  · unfold evaluate
    rw [if_neg he]
    rcases hop : s.op with _ | op0 <;> rcases hrl : s.rightLabel with _ | lbl <;>
      simp only [hop, hrl]
    · rcases hlo : s.lastOp with _ | lop <;> rcases hld : s.lastOperand with _ | lod <;>
        simp only [hlo, hld]
      · exact h
      · exact h
      · exact h
      · exact inv_resultState _
    · exact inv_resultState _
    · exact inv_resultState _
    · exact inv_resultState _

theorem inv_percent (s : CalcState) (h : InvS s) : InvS (percent s) := by
  by_cases he : s.error = true
  · unfold percent
    rw [if_pos he]
    exact inv_initial
  · rcases h with h | hg | ⟨hinf, _⟩
    · exact absurd h he
    · unfold percent
      rw [if_neg he]
      exact Or.inr (Or.inl hg)
    · unfold percent
      rw [if_neg he]
      exact Or.inr (Or.inr ⟨hinf, rfl⟩)

/-- Every reachable state is in the error state, shows a well-shaped
display, or shows one of the overflow `"Infinity"` strings (in overwrite
mode). -/
theorem reachable_inv {s : CalcState} (h : Reachable s) : InvS s := by
  induction h with
  | init => exact inv_initial
  | digit d _ ih => exact inv_inputDigit _ d ih
  | dot _ ih => exact inv_inputDot _ ih
  | setOp op _ ih => exact inv_setOperator _ op ih
  | sign _ ih => exact inv_toggleSign _ ih
  | back _ ih => exact inv_backspace _ ih
  | clear => exact inv_clearAll
  | evalStep _ ih => exact inv_evaluate _ ih
  | pct _ ih => exact inv_percent _ ih

/-- `state.prev ?? toNumber(state.display)`: the left operand of the compute
branches of `setOperator` and `evaluate`. -/
def operandA (s : CalcState) : Frac := s.prev.getD (toNumber s.display)

/-- `state.rightLabel && state.rightValue != null ? state.rightValue :
toNumber(state.display)`: the right operand of the compute branches. -/
def operandB (s : CalcState) : Frac :=
  match s.rightLabel, s.rightValue with
  | some _, some v => v
  | _, _ => toNumber s.display

theorem operandB_of_rightLabel_some {s : CalcState} {lbl : List Char}
    (h : s.rightLabel = some lbl) :
    (match s.rightValue with
     | some v => v
     | none => toNumber s.display) = operandB s := by
  unfold operandB
  rw [h]
  cases s.rightValue <;> rfl

theorem operandB_of_rightLabel_none {s : CalcState}
    (h : s.rightLabel = none) : operandB s = toNumber s.display := by
  unfold operandB
  rw [h]

/-- The result record shared by every compute branch of `setOperator` and
`evaluate` (engine.js): format the result, flag `error` on `"Error"`, stage
the result as `prev` and remember the `lastOp`/`lastOperand` pair unless the
result was non-finite. -/
def resultRecord (res : JsNum) (newOp : Option Op) (oldOp : Op) (b : Frac) : CalcState :=
  let formatted := formatNumber res
  let err := formatted = errStr
  { display := formatted,
    prev := if err then none else res.fin?,
    op := newOp,
    overwrite := true,
    lastOp := if err then none else some oldOp,
    lastOperand := if err then none else some b,
    error := err,
    rightLabel := none,
    rightValue := none }

theorem setOperator_chain_eq {s : CalcState} {op0 : Op} (op : Op)
    (he : s.error = false) (hop : s.op = some op0) (hov : s.overwrite = false) :
    setOperator s op =
      resultRecord (compute (operandA s) (operandB s) op0) (some op) op0 (operandB s) := by
  unfold setOperator
  rw [if_neg (by simp [he])]
  simp only [hop, hov]
  rfl

theorem setOperator_stage_eq {s : CalcState} (op : Op)
    (he : s.error = false) (hstage : s.op = none ∨ s.overwrite = true) :
    setOperator s op =
      { s with prev := some (operandB s), op := some op, overwrite := true,
               rightLabel := none, rightValue := none } := by
  unfold setOperator
  rw [if_neg (by simp [he])]
  rcases hop : s.op with _ | op0
  · simp only [hop]
    rfl
  · rcases hov : s.overwrite with _ | _
    · rcases hstage with h | h
      · rw [hop] at h
        exact absurd h (by simp)
      · rw [hov] at h
        exact absurd h (by simp)
    · simp only [hop, hov]
      rfl

/-- `evaluate` on a non-error state with a pending operator (the first and
third branches of the source) produces the common result record for
`compute(a, b, op)`, with the operator cleared. -/
theorem evaluate_op_eq {s : CalcState} {op0 : Op}
    (he : s.error = false) (hop : s.op = some op0) :
    evaluate s =
      resultRecord (compute (operandA s) (operandB s) op0) none op0 (operandB s) := by
  unfold evaluate
  rw [if_neg (by simp [he])]
  rcases hrl : s.rightLabel with _ | lbl
  · simp only [hop, hrl, resultRecord, operandA, operandB]
  · rcases hrv : s.rightValue with _ | v
    · simp only [hop, hrl, hrv, resultRecord, operandA, operandB]
    · simp only [hop, hrl, hrv, resultRecord, operandA, operandB]

/-- `evaluate` on a non-error state with a staged percent and no operator
(the second branch of the source). -/
theorem evaluate_pctUnary_eq {s : CalcState} {lbl : List Char}
    (he : s.error = false) (hop : s.op = none) (hrl : s.rightLabel = some lbl) :
    evaluate s =
      (let b := match s.rightValue with
                | some v => v
                | none => (toNumber s.display).div (Frac.ofNat 100)
       let formatted := formatNumber (.finite b)
       let err := formatted = errStr
       { display := formatted, prev := if err then none else some b, op := none,
         overwrite := true, lastOp := none, lastOperand := none, error := err,
         rightLabel := none, rightValue := none }) := by
  unfold evaluate
  rw [if_neg (by simp [he])]
  rcases hrv : s.rightValue with _ | v
  · simp only [hop, hrl, hrv]
  · simp only [hop, hrl, hrv]

/-- `evaluate` on a non-error state with no operator, no staged percent and
a remembered last operation (the fourth branch of the source). -/
theorem evaluate_repeat_eq {s : CalcState} {lop : Op} {lod : Frac}
    (he : s.error = false) (hop : s.op = none) (hrl : s.rightLabel = none)
    (hlo : s.lastOp = some lop) (hld : s.lastOperand = some lod) :
    evaluate s = resultRecord (compute (toNumber s.display) lod lop) none lop lod := by
  unfold evaluate
  rw [if_neg (by simp [he])]
  simp only [hop, hrl, hlo, hld]
  rfl

/-- The common result record: a non-finite result raises `error` and clears
`prev`/`lastOp`/`lastOperand`; a finite result is staged in `prev` with
`overwrite` set and the pair remembered. -/
theorem resultRecord_spec (res : JsNum) (newOp : Option Op) (oldOp : Op) (b : Frac) :
    (res.isFinite = false →
       (resultRecord res newOp oldOp b).error = true ∧
       (resultRecord res newOp oldOp b).prev = none ∧
       (resultRecord res newOp oldOp b).lastOp = none ∧
       (resultRecord res newOp oldOp b).lastOperand = none) ∧
    (∀ q, res = .finite q →
       (resultRecord res newOp oldOp b).prev = some q ∧
       (resultRecord res newOp oldOp b).overwrite = true ∧
       (resultRecord res newOp oldOp b).error = false ∧
       (resultRecord res newOp oldOp b).lastOp = some oldOp ∧
       (resultRecord res newOp oldOp b).lastOperand = some b) := by
  constructor
  · intro hnf
    have herr : formatNumber res = errStr := (formatNumber_eq_errStr_iff res).mpr hnf
    simp [resultRecord, herr]
  · intro q hq
    subst hq
    have hne : formatNumber (.finite q) ≠ errStr := formatNumber_finite_ne_errStr q
    simp [resultRecord, hne, JsNum.fin?]

/-- **C2**: for every non-error state in which `evaluate` or `setOperator`
computes a binary result (a pending operator, a chained operator press, or
a repeated last operation): a non-finite result sets `error` and clears
`prev`/`lastOp`/`lastOperand`; a finite result is stored in `prev` with
`overwrite` set. -/
theorem binary_result_handling (s : CalcState) (hs : s.error = false) :
    (∀ op0, s.op = some op0 →
      ((compute (operandA s) (operandB s) op0).isFinite = false →
         (evaluate s).error = true ∧ (evaluate s).prev = none ∧
         (evaluate s).lastOp = none ∧ (evaluate s).lastOperand = none) ∧
      (∀ q, compute (operandA s) (operandB s) op0 = .finite q →
         (evaluate s).prev = some q ∧ (evaluate s).overwrite = true)) ∧
    (∀ op0 op1, s.op = some op0 → s.overwrite = false →
      ((compute (operandA s) (operandB s) op0).isFinite = false →
         (setOperator s op1).error = true ∧ (setOperator s op1).prev = none ∧
         (setOperator s op1).lastOp = none ∧ (setOperator s op1).lastOperand = none) ∧
      (∀ q, compute (operandA s) (operandB s) op0 = .finite q →
         (setOperator s op1).prev = some q ∧ (setOperator s op1).overwrite = true)) ∧
    (∀ lop lod, s.op = none → s.rightLabel = none → s.lastOp = some lop →
        s.lastOperand = some lod →
      ((compute (toNumber s.display) lod lop).isFinite = false →
         (evaluate s).error = true ∧ (evaluate s).prev = none ∧
         (evaluate s).lastOp = none ∧ (evaluate s).lastOperand = none) ∧
      (∀ q, compute (toNumber s.display) lod lop = .finite q →
         (evaluate s).prev = some q ∧ (evaluate s).overwrite = true)) := by
  refine ⟨?_, ?_, ?_⟩
  · intro op0 hop
    rw [evaluate_op_eq hs hop]
    have h := resultRecord_spec (compute (operandA s) (operandB s) op0) none op0 (operandB s)
    exact ⟨h.1, fun q hq => ⟨(h.2 q hq).1, (h.2 q hq).2.1⟩⟩
  · intro op0 op1 hop hov
    rw [setOperator_chain_eq op1 hs hop hov]
    have h := resultRecord_spec (compute (operandA s) (operandB s) op0) (some op1) op0 (operandB s)
    exact ⟨h.1, fun q hq => ⟨(h.2 q hq).1, (h.2 q hq).2.1⟩⟩
  · intro lop lod hop hrl hlo hld
    rw [evaluate_repeat_eq hs hop hrl hlo hld]
    have h := resultRecord_spec (compute (toNumber s.display) lod lop) none lop lod
    exact ⟨h.1, fun q hq => ⟨(h.2 q hq).1, (h.2 q hq).2.1⟩⟩

/-- Witness for `binary_result_handling`: `7 + 3` on the state reached
after `7`, `+`, `3`. -/
theorem binary_result_handling_witness :
    (evaluate { display := ['3'], prev := some ⟨7, 1⟩, op := some Op.add,
                overwrite := false, lastOp := none, lastOperand := none,
                error := false, rightLabel := none,
                rightValue := none : CalcState }).prev = some ⟨10, 1⟩ ∧
    (evaluate { display := ['3'], prev := some ⟨7, 1⟩, op := some Op.add,
                overwrite := false, lastOp := none, lastOperand := none,
                error := false, rightLabel := none,
                rightValue := none : CalcState }).overwrite = true :=
  ((binary_result_handling _ rfl).1 Op.add rfl).2 ⟨10, 1⟩ (by decide)

/-- **C6**: every transition on a state with `error = true` returns exactly
the initial state. -/
theorem error_state_resets (s : CalcState) (h : s.error = true) :
    (∀ d : Fin 10, inputDigit s d = createInitialState) ∧
    inputDot s = createInitialState ∧
    (∀ op : Op, setOperator s op = createInitialState) ∧
    percent s = createInitialState ∧
    toggleSign s = createInitialState ∧
    backspace s = createInitialState ∧
    evaluate s = createInitialState := by
  refine ⟨fun d => ?_, ?_, fun op => ?_, ?_, ?_, ?_, ?_⟩
  · unfold inputDigit
    rw [if_pos h]
  · unfold inputDot
    rw [if_pos h]
  · unfold setOperator
    rw [if_pos h]
  · unfold percent
    rw [if_pos h]
  · unfold toggleSign
    rw [if_pos h]
  · unfold backspace
    rw [if_pos h]
  · unfold evaluate
    rw [if_pos h]

/-- Witness for `error_state_resets`: the state shown after a division by
zero. -/
theorem error_state_resets_witness :
    inputDot { display := "Error".toList, prev := none, op := none,
               overwrite := true, lastOp := none, lastOperand := none,
               error := true, rightLabel := none,
               rightValue := none : CalcState } = createInitialState ∧
    evaluate { display := "Error".toList, prev := none, op := none,
               overwrite := true, lastOp := none, lastOperand := none,
               error := true, rightLabel := none,
               rightValue := none : CalcState } = createInitialState :=
  ⟨(error_state_resets _ rfl).2.1, (error_state_resets _ rfl).2.2.2.2.2.2⟩

/-- `compute` at `'^'` with an integer right operand: `Math.pow(0, k)` for
negative `k` is `Infinity`; otherwise the exact integer power. -/
theorem compute_pow_int (a : Frac) (k : Int) :
    compute a (Frac.ofInt k) Op.pow =
      if a.num = 0 ∧ k < 0 then .posInf else clampRange (a.fpow k) := by
  have h1 : k / ((1 : Nat) : Int) = k := by omega
  show (if ((1 : Nat) : Int) ∣ k then
      if a.num = 0 ∧ k / ((1 : Nat) : Int) < 0 then JsNum.posInf
      else clampRange (a.fpow (k / ((1 : Nat) : Int)))
    else JsNum.nan) = _
  rw [if_pos (by norm_num), h1]

/-- The exactly representable fragment of `compute`: it matches exact
arithmetic on `+`, `−`, `×`, `÷` (nonzero divisor) and `^` (integer
exponents) whenever the exact result is within the double range;
`compute(a, 0, '/')` is positive infinity; `Math.pow(0, k)` for negative
`k` is positive infinity; and `formatNumber` renders every non-finite
number as `"Error"`. -/
theorem compute_arithmetic :
    (∀ a b : Frac, a.Pos → b.Pos → inRange (a.add b) →
       compute a b Op.add = .finite (a.add b) ∧ (a.add b).val = a.val + b.val) ∧
    (∀ a b : Frac, a.Pos → b.Pos → inRange (a.sub b) →
       compute a b Op.sub = .finite (a.sub b) ∧ (a.sub b).val = a.val - b.val) ∧
    (∀ a b : Frac, a.Pos → b.Pos → inRange (a.mul b) →
       compute a b Op.mul = .finite (a.mul b) ∧ (a.mul b).val = a.val * b.val) ∧
    (∀ a b : Frac, a.Pos → b.Pos → b.num ≠ 0 → inRange (a.div b) →
       compute a b Op.div = .finite (a.div b) ∧ (a.div b).val = a.val / b.val) ∧
    (∀ a : Frac, compute a (Frac.ofNat 0) Op.div = .posInf) ∧
    (∀ (a : Frac) (k : Int), a.Pos → (k < 0 → a.num ≠ 0) → inRange (a.fpow k) →
       compute a (Frac.ofInt k) Op.pow = .finite (a.fpow k) ∧
       (a.fpow k).val = a.val ^ k) ∧
    (∀ (a : Frac) (k : Int), a.num = 0 → k < 0 →
       compute a (Frac.ofInt k) Op.pow = .posInf) ∧
    (∀ n : JsNum, n.isFinite = false → formatNumber n = errStr) := by
  refine ⟨?_, ?_, ?_, ?_, ?_, ?_, ?_, ?_⟩
  · exact fun a b ha hb hr => ⟨clampRange_finite hr, Frac.val_add ha hb⟩
  · exact fun a b ha hb hr => ⟨clampRange_finite hr, Frac.val_sub ha hb⟩
  · exact fun a b ha hb hr => ⟨clampRange_finite hr, Frac.val_mul ha hb⟩
  · intro a b ha hb h0 hr
    constructor
    · show (if b.num = 0 then JsNum.posInf else clampRange (a.div b)) = .finite (a.div b)
      rw [if_neg h0, clampRange_finite hr]
    · exact Frac.val_div ha hb h0
  · intro a
    rfl
  · intro a k ha hk hr
    refine ⟨?_, Frac.val_fpow ha k hk⟩
    rw [compute_pow_int]
    rw [if_neg (by
      rintro ⟨hz, hneg⟩
      exact hk hneg hz), clampRange_finite hr]
  · intro a k h0 hneg
    rw [compute_pow_int, if_pos ⟨h0, hneg⟩]
  · intro n hn
    cases n with
    | finite q => exact absurd hn (by simp [JsNum.isFinite])
    | posInf => rfl
    | negInf => rfl
    | nan => rfl

/-- Witness-style instance of `compute_arithmetic`: `6 + 4`, `6 / 4`,
`6 / 0` and `6 ^ 2` at concrete fractions. -/
theorem compute_arithmetic_witness :
    (compute ⟨6, 1⟩ ⟨4, 1⟩ Op.add = .finite (Frac.add ⟨6, 1⟩ ⟨4, 1⟩) ∧
      (Frac.add ⟨6, 1⟩ ⟨4, 1⟩).val = Frac.val ⟨6, 1⟩ + Frac.val ⟨4, 1⟩) ∧
    (compute ⟨6, 1⟩ ⟨4, 1⟩ Op.div = .finite (Frac.div ⟨6, 1⟩ ⟨4, 1⟩) ∧
      (Frac.div ⟨6, 1⟩ ⟨4, 1⟩).val = Frac.val ⟨6, 1⟩ / Frac.val ⟨4, 1⟩) ∧
    compute ⟨6, 1⟩ (Frac.ofNat 0) Op.div = .posInf ∧
    (compute ⟨6, 1⟩ (Frac.ofInt 2) Op.pow = .finite (Frac.fpow ⟨6, 1⟩ 2) ∧
      (Frac.fpow ⟨6, 1⟩ 2).val = Frac.val ⟨6, 1⟩ ^ (2 : Int)) ∧
    formatNumber JsNum.posInf = errStr :=
  ⟨compute_arithmetic.1 ⟨6, 1⟩ ⟨4, 1⟩ (by decide) (by decide) (by decide),
   compute_arithmetic.2.2.2.1 ⟨6, 1⟩ ⟨4, 1⟩ (by decide) (by decide) (by decide) (by decide),
   compute_arithmetic.2.2.2.2.1 ⟨6, 1⟩,
   compute_arithmetic.2.2.2.2.2.1 ⟨6, 1⟩ 2 (by decide) (by omega) (by decide),
   compute_arithmetic.2.2.2.2.2.2.2 JsNum.posInf rfl⟩

theorem fmt_ten : formatNumber (.finite ⟨10, 1⟩) = ['1', '0'] := by
  rw [formatNumber_finite_nonoverflow _ (by decide)]
  simp [jsRound, sciCond, renderDec, natDigits, pad12, stripZerosRight, digitChar]

theorem fmt_seven : formatNumber (.finite ⟨7, 1⟩) = ['7'] := by
  rw [formatNumber_finite_nonoverflow _ (by decide)]
  simp [jsRound, sciCond, renderDec, natDigits, pad12, stripZerosRight, digitChar]

theorem fmt_nine : formatNumber (.finite ⟨9, 1⟩) = ['9'] := by
  rw [formatNumber_finite_nonoverflow _ (by decide)]
  simp [jsRound, sciCond, renderDec, natDigits, pad12, stripZerosRight, digitChar]

/-- **C4**: starting from the initial state, `7`, `+`, `3`, `×` first
evaluates the pending `7 + 3 = 10` and stages the new operator: display
`"10"`, `prev = 10`, `op = '*'`, `overwrite`, and
`lastOp`/`lastOperand` = (`'+'`, `3`). -/
theorem operator_chaining_example :
    setOperator (inputDigit (setOperator (inputDigit createInitialState 7) Op.add) 3) Op.mul =
      { display := "10".toList, prev := some ⟨10, 1⟩, op := some Op.mul,
        overwrite := true, lastOp := some Op.add, lastOperand := some ⟨3, 1⟩,
        error := false, rightLabel := none, rightValue := none } ∧
    Frac.val ⟨10, 1⟩ = 10 ∧ Frac.val ⟨3, 1⟩ = 3 := by
  refine ⟨?_, by norm_num [Frac.val], by norm_num [Frac.val]⟩
  have h1 : inputDigit (setOperator (inputDigit createInitialState 7) Op.add) 3 =
      ⟨['3'], some ⟨7, 1⟩, some Op.add, false, none, none, false, none, none⟩ := by decide
  rw [h1, setOperator_chain_eq Op.mul rfl rfl rfl]
  have hab : compute
      (operandA ⟨['3'], some ⟨7, 1⟩, some Op.add, false, none, none, false, none, none⟩)
      (operandB ⟨['3'], some ⟨7, 1⟩, some Op.add, false, none, none, false, none, none⟩)
      Op.add = .finite ⟨10, 1⟩ := by decide
  have hb : operandB ⟨['3'], some ⟨7, 1⟩, some Op.add, false, none, none, false, none, none⟩ =
      ⟨3, 1⟩ := by decide
  rw [hab, hb]
  simp only [resultRecord, fmt_ten]
  decide

/-- **C5**: `5`, `+`, `2`, `=` shows `"7"`; a second `=` re-applies the
remembered `+ 2` to the current display and shows `"9"`. -/
theorem repeat_equals_example :
    (evaluate (inputDigit (setOperator (inputDigit createInitialState 5) Op.add) 2)).display =
      "7".toList ∧
    (evaluate (evaluate (inputDigit (setOperator (inputDigit createInitialState 5) Op.add) 2))).display =
      "9".toList := by
  have h1 : inputDigit (setOperator (inputDigit createInitialState 5) Op.add) 2 =
      ⟨['2'], some ⟨5, 1⟩, some Op.add, false, none, none, false, none, none⟩ := by decide
  have h2 : evaluate (inputDigit (setOperator (inputDigit createInitialState 5) Op.add) 2) =
      ⟨['7'], some ⟨7, 1⟩, none, true, some Op.add, some ⟨2, 1⟩, false, none, none⟩ := by
    rw [h1, evaluate_op_eq rfl rfl]
    have hab : compute
        (operandA ⟨['2'], some ⟨5, 1⟩, some Op.add, false, none, none, false, none, none⟩)
        (operandB ⟨['2'], some ⟨5, 1⟩, some Op.add, false, none, none, false, none, none⟩)
        Op.add = .finite ⟨7, 1⟩ := by decide
    have hb : operandB ⟨['2'], some ⟨5, 1⟩, some Op.add, false, none, none, false, none, none⟩ =
        ⟨2, 1⟩ := by decide
    rw [hab, hb]
    simp only [resultRecord, fmt_seven]
    decide
  refine ⟨by rw [h2]; decide, ?_⟩
  rw [h2, evaluate_repeat_eq rfl rfl rfl rfl rfl]
  have hre : compute
      (toNumber (CalcState.display ⟨['7'], some ⟨7, 1⟩, none, true, some Op.add, some ⟨2, 1⟩, false, none, none⟩))
      ⟨2, 1⟩ Op.add = .finite ⟨9, 1⟩ := by decide
  rw [hre]
  simp only [resultRecord, fmt_nine]
  decide

theorem toggleSign_eq (s : CalcState) (hs : s.error = false) (h0 : s.display ≠ ['0']) :
    toggleSign s =
      { s with display :=
          if s.display.head? = some '-' then s.display.drop 1 else '-' :: s.display } := by
  unfold toggleSign
  rw [if_neg (by simp [hs]), if_neg h0]
  by_cases ho : s.overwrite = true
  · rw [if_pos ho]
  · rw [if_neg ho]

theorem head_cons_drop {l : List Char} {c : Char} (h : l.head? = some c) :
    c :: l.drop 1 = l := by
  cases l with
  | nil => exact absurd h (by simp)
  | cons a t =>
    simp only [List.head?_cons, Option.some_inj] at h
    rw [h]
    rfl

/-- **C10** (amended): `toggleSign` is an involution on every non-error
state whose display is not a `'-'` followed by `"0"` or by another `'-'`
(shapes such as `"-0"`, reachable via `0`, `.`, `±`, `←`, break it). -/
theorem toggleSign_involution (s : CalcState) (hs : s.error = false)
    (hshape : ¬(s.display.head? = some '-' ∧
      (s.display.drop 1 = ['0'] ∨ (s.display.drop 1).head? = some '-'))) :
    toggleSign (toggleSign s) = s := by
  by_cases h0 : s.display = ['0']
  · have h1 : toggleSign s = s := by
      unfold toggleSign
      rw [if_neg (by simp [hs]), if_pos h0]
    rw [h1, h1]
  · rw [toggleSign_eq s hs h0]
    by_cases hd : s.display.head? = some '-'
    · rw [if_pos hd]
      push_neg at hshape
      rcases hshape hd with ⟨hne0, hnedash⟩
      rw [toggleSign_eq _ (by exact hs) (by exact hne0)]
      show { s with display :=
          if (s.display.drop 1).head? = some '-' then (s.display.drop 1).drop 1
          else '-' :: s.display.drop 1 } = s
      rw [if_neg hnedash, head_cons_drop hd]
    · rw [if_neg hd]
      rw [toggleSign_eq _ (by exact hs) (by simp)]
      show { s with display :=
          if ('-' :: s.display).head? = some '-' then ('-' :: s.display).drop 1
          else '-' :: '-' :: s.display } = s
      rw [if_pos (by simp)]
      show { s with display := s.display } = s
      rfl

/-- Counterexample for the unrestricted C10: on display `"-0"` (a non-error
state) toggling the sign twice yields display `"0"`, not the original
state. -/
theorem toggleSign_involution_counterexample :
    (CalcState.error ⟨['-', '0'], none, none, false, none, none, false, none, none⟩) = false ∧
    toggleSign (toggleSign ⟨['-', '0'], none, none, false, none, none, false, none, none⟩) ≠
      ⟨['-', '0'], none, none, false, none, none, false, none, none⟩ := by
  refine ⟨rfl, ?_⟩
  decide

/-- Witness for `toggleSign_involution`: double toggle on display `"5"`. -/
theorem toggleSign_involution_witness :
    toggleSign (toggleSign ⟨['5'], none, none, false, none, none, false, none, none⟩) =
      ⟨['5'], none, none, false, none, none, false, none, none⟩ :=
  toggleSign_involution _ rfl (by decide)

/-- **C8** (amended): `inputDigit` never extends a display that already has
16 or more characters: on a non-error, non-overwrite state with a display
other than `"0"` of length at least 16 it is a no-op.  (The display itself
can exceed 16 characters, e.g. by `toggleSign`: see the counterexample.) -/
theorem inputDigit_noop_at_16 (s : CalcState) (d : Fin 10)
    (he : s.error = false) (ho : s.overwrite = false) (hd : s.display ≠ ['0'])
    (hl : 16 ≤ s.display.length) : inputDigit s d = s := by
  unfold inputDigit
  rw [if_neg (by simp [he])]
  rw [if_neg ?hcond]
  case hcond =>
    rintro (h | h)
    · rw [ho] at h
      exact absurd h (by simp)
    · exact hd h
  rw [if_pos hl]

/-- Witness for `inputDigit_noop_at_16`: a 16-digit display ignores a
further digit. -/
theorem inputDigit_noop_at_16_witness :
    inputDigit ⟨['9', '9', '9', '9', '9', '9', '9', '9', '9', '9', '9', '9', '9', '9', '9', '9'],
        none, none, false, none, none, false, none, none⟩ 5 =
      ⟨['9', '9', '9', '9', '9', '9', '9', '9', '9', '9', '9', '9', '9', '9', '9', '9'],
        none, none, false, none, none, false, none, none⟩ :=
  inputDigit_noop_at_16 _ 5 rfl rfl (by decide) (by decide)

theorem reachable_digit_iter (d : Fin 10) (n : Nat) {s : CalcState} (h : Reachable s) :
    Reachable ((fun t => inputDigit t d)^[n] s) := by
  induction n with
  | zero => simpa using h
  | succ n ih =>
    rw [Function.iterate_succ_apply']
    exact Reachable.digit d ih

/-- Counterexample for the unrestricted C8: after sixteen `9`s and a sign
toggle, a reachable non-error display has 17 characters. -/
theorem display_length_counterexample :
    Reachable (toggleSign ((fun t => inputDigit t 9)^[15] (inputDigit createInitialState 9))) ∧
    (toggleSign ((fun t => inputDigit t 9)^[15] (inputDigit createInitialState 9))).error = false ∧
    16 < (toggleSign ((fun t => inputDigit t 9)^[15] (inputDigit createInitialState 9))).display.length :=
  ⟨Reachable.sign (reachable_digit_iter 9 15 (Reachable.digit 9 Reachable.init)),
   by decide, by decide⟩

theorem fmt_twenty : formatNumber (.finite ⟨20, 1⟩) = ['2', '0'] := by
  rw [formatNumber_finite_nonoverflow _ (by decide)]
  simp [jsRound, sciCond, renderDec, natDigits, pad12, stripZerosRight, digitChar]

theorem fmt_twoTwenty : formatNumber (.finite ⟨220, 1⟩) = ['2', '2', '0'] := by
  rw [formatNumber_finite_nonoverflow _ (by decide)]
  simp [jsRound, sciCond, renderDec, natDigits, pad12, stripZerosRight, digitChar]

/-- **C9** (amended): on a non-error state with a non-null `preview`, the
discriminator tag matches the `evaluate` case that applies, and for the
`"binary"`, `"percentUnary"` and `"repeat"` kinds `formatNumber` of the
previewed result equals the display `evaluate` would produce.  For the
`"percent"` kind the previewed `result` is the resolved right operand, not
the computed binary result (see the counterexample). -/
theorem preview_evaluate_agreement (s : CalcState) (hs : s.error = false)
    (p : PreviewEntry) (hp : preview s = some p) :
    (∀ op0, s.op = some op0 → s.rightLabel = none →
       p.kind = "binary".toList ∧ formatNumber p.result = (evaluate s).display) ∧
    (∀ lbl, s.op = none → s.rightLabel = some lbl →
       p.kind = "percentUnary".toList ∧ formatNumber p.result = (evaluate s).display) ∧
    (s.op = none → s.rightLabel = none →
       p.kind = "repeat".toList ∧ formatNumber p.result = (evaluate s).display) ∧
    (∀ op0 lbl, s.op = some op0 → s.rightLabel = some lbl →
       p.kind = "percent".toList ∧ p.result = .finite (operandB s)) := by
  refine ⟨?_, ?_, ?_, ?_⟩
  · intro op0 hop hrl
    simp only [preview, hop, hrl, Option.some_inj] at hp
    subst hp
    refine ⟨rfl, ?_⟩
    rw [evaluate_op_eq hs hop]
    show formatNumber (compute (s.prev.getD (toNumber s.display)) (toNumber s.display) op0) =
      formatNumber (compute (operandA s) (operandB s) op0)
    rw [operandB_of_rightLabel_none hrl]
    rfl
  · intro lbl hop hrl
    simp only [preview, hop, hrl, Option.some_inj] at hp
    subst hp
    refine ⟨rfl, ?_⟩
    rw [evaluate_pctUnary_eq hs hop hrl]
  · intro hop hrl
    rcases hlo : s.lastOp with _ | lop
    · simp only [preview, hop, hrl, hlo] at hp
      exact absurd hp (by simp)
    · rcases hld : s.lastOperand with _ | lod
      · simp only [preview, hop, hrl, hlo, hld] at hp
        exact absurd hp (by simp)
      · simp only [preview, hop, hrl, hlo, hld, Option.some_inj] at hp
        subst hp
        refine ⟨rfl, ?_⟩
        rw [evaluate_repeat_eq hs hop hrl hlo hld]
        rfl
  · intro op0 lbl hop hrl
    simp only [preview, hop, hrl, Option.some_inj] at hp
    subst hp
    refine ⟨rfl, ?_⟩
    show JsNum.finite (match s.rightValue with
      | some v => v
      | none => toNumber s.display) = .finite (operandB s)
    rcases hrv : s.rightValue with _ | v <;>
      simp only [hrv, operandB, hrl]

/-- Witness for `preview_evaluate_agreement`: the binary case `7 + 3`. -/
theorem preview_evaluate_agreement_witness :
    (PreviewEntry.kind ((preview ⟨['3'], some ⟨7, 1⟩, some Op.add, false, none, none, false, none, none⟩).get
        (by decide))) = "binary".toList ∧
    formatNumber (PreviewEntry.result ((preview ⟨['3'], some ⟨7, 1⟩, some Op.add, false, none, none, false, none, none⟩).get
        (by decide))) =
      (evaluate ⟨['3'], some ⟨7, 1⟩, some Op.add, false, none, none, false, none, none⟩).display :=
  (preview_evaluate_agreement _ rfl _
    (Option.some_get (by decide)).symm).1 Op.add rfl rfl

/-- Counterexample for the unrestricted C9: on the percent-staged state of
`200 + 10 %`, `preview` reports the resolved operand `20` as `result`,
while `evaluate` displays `220`. -/
theorem preview_percent_counterexample :
    (CalcState.error ⟨['1', '0'], some ⟨200, 1⟩, some Op.add, true, none, none, false,
        some ['1', '0', '%'], some ⟨20, 1⟩⟩) = false ∧
    (preview ⟨['1', '0'], some ⟨200, 1⟩, some Op.add, true, none, none, false,
        some ['1', '0', '%'], some ⟨20, 1⟩⟩).map (fun p => formatNumber p.result) =
      some ['2', '0'] ∧
    (evaluate ⟨['1', '0'], some ⟨200, 1⟩, some Op.add, true, none, none, false,
        some ['1', '0', '%'], some ⟨20, 1⟩⟩).display = ['2', '2', '0'] ∧
    some ((evaluate ⟨['1', '0'], some ⟨200, 1⟩, some Op.add, true, none, none, false,
        some ['1', '0', '%'], some ⟨20, 1⟩⟩).display) ≠
      (preview ⟨['1', '0'], some ⟨200, 1⟩, some Op.add, true, none, none, false,
        some ['1', '0', '%'], some ⟨20, 1⟩⟩).map (fun p => formatNumber p.result) := by
  have ha : (preview ⟨['1', '0'], some ⟨200, 1⟩, some Op.add, true, none, none, false,
      some ['1', '0', '%'], some ⟨20, 1⟩⟩).map (fun p => formatNumber p.result) =
      some ['2', '0'] := by
    show some (formatNumber (.finite ⟨20, 1⟩)) = some ['2', '0']
    rw [fmt_twenty]
  have hb : (evaluate ⟨['1', '0'], some ⟨200, 1⟩, some Op.add, true, none, none, false,
      some ['1', '0', '%'], some ⟨20, 1⟩⟩).display = ['2', '2', '0'] := by
    rw [evaluate_op_eq rfl rfl]
    have hc : compute
        (operandA ⟨['1', '0'], some ⟨200, 1⟩, some Op.add, true, none, none, false,
          some ['1', '0', '%'], some ⟨20, 1⟩⟩)
        (operandB ⟨['1', '0'], some ⟨200, 1⟩, some Op.add, true, none, none, false,
          some ['1', '0', '%'], some ⟨20, 1⟩⟩) Op.add = .finite ⟨220, 1⟩ := by decide
    rw [hc]
    show formatNumber (.finite ⟨220, 1⟩) = ['2', '2', '0']
    rw [fmt_twoTwenty]
  refine ⟨rfl, ha, hb, ?_⟩
  rw [ha, hb]
  decide

set_option maxRecDepth 8000

/-- `formatNumber(1e21)`: `toString` would use exponential notation, so the
engine falls back to `toLocaleString`, whose `en-US` grouping yields a
comma-separated string. -/
theorem fmtBig : formatNumber (JsNum.finite ⟨1000000000000000000000, 1⟩) =
    "1,000,000,000,000,000,000,000".toList := by
  have hjr : jsRound ⟨1000000000000000000000, 1⟩ = 1000000000000000000000000000000000 := by
    decide
  have hsci : sciCond 1000000000000000000000000000000000 := by
    left
    decide
  have hlr : localeRound12 ((1000000000000000000000000000000000 : Int).natAbs) =
      1000000000000000000000000000000000 := by
    simp [localeRound12, natDigits]
  have hloc : locale12 1000000000000000000000000000000000 =
      "1,000,000,000,000,000,000,000".toList := by
    show (if (1000000000000000000000000000000000 : Int) < 0 then ['-'] else []) ++
      groupComma (natDigits (localeRound12 (1000000000000000000000000000000000 : Int).natAbs / 10 ^ 12)) ++
      (if localeRound12 (1000000000000000000000000000000000 : Int).natAbs % 10 ^ 12 = 0 then []
       else '.' :: stripZerosRight (pad12 (localeRound12 (1000000000000000000000000000000000 : Int).natAbs % 10 ^ 12))) =
      "1,000,000,000,000,000,000,000".toList
    rw [hlr]
    have hdiv : (1000000000000000000000000000000000 : Nat) / 10 ^ 12 =
        1000000000000000000000 := by norm_num
    have hmod : (1000000000000000000000000000000000 : Nat) % 10 ^ 12 = 0 := by norm_num
    rw [hdiv, hmod, if_pos rfl, if_neg (by norm_num)]
    have hgc : groupComma (natDigits 1000000000000000000000) =
        "1,000,000,000,000,000,000,000".toList := by
      simp [natDigits, groupComma, digitChar]
    simp [hgc]
  rw [formatNumber_finite_nonoverflow _ (by decide), hjr, if_pos hsci, hloc]

/-- `formatNumber(1e300)`: the product `1e300 * 1e12` overflows the double
range, so the rounding step yields `Infinity` and the display is the raw
`"Infinity"` string (with the error flag left false). -/
theorem fmtInf : formatNumber (.finite ⟨10 ^ 300, 1⟩) = infStr := by
  rw [formatNumber_finite_overflow _ (by decide), if_neg (by decide)]

/-- Counterexample for the unrestricted C1, in two reachable runs.  The
run `1e15 × 1e6 =` produces `1e21`, which `formatNumber` renders with
`en-US` thousands separators; the run `1e15 ^ 20 =` produces `1e300`,
whose formatting overflows to the plain string `"Infinity"`.  Neither
display parses as a number, yet `error` is false in both. -/
theorem display_parse_counterexample :
    Reachable (evaluate ((fun t => inputDigit t 0)^[6] (inputDigit
      (setOperator ((fun t => inputDigit t 0)^[15] (inputDigit createInitialState 1)) Op.mul) 1))) ∧
    (evaluate ((fun t => inputDigit t 0)^[6] (inputDigit
      (setOperator ((fun t => inputDigit t 0)^[15] (inputDigit createInitialState 1)) Op.mul) 1))).error = false ∧
    (parseNum (evaluate ((fun t => inputDigit t 0)^[6] (inputDigit
      (setOperator ((fun t => inputDigit t 0)^[15] (inputDigit createInitialState 1)) Op.mul) 1))).display).isSome = false ∧
    (evaluate ((fun t => inputDigit t 0)^[6] (inputDigit
      (setOperator ((fun t => inputDigit t 0)^[15] (inputDigit createInitialState 1)) Op.mul) 1))).display =
      "1,000,000,000,000,000,000,000".toList ∧
    Reachable (evaluate (inputDigit (inputDigit
      (setOperator ((fun t => inputDigit t 0)^[15] (inputDigit createInitialState 1)) Op.pow) 2) 0)) ∧
    (evaluate (inputDigit (inputDigit
      (setOperator ((fun t => inputDigit t 0)^[15] (inputDigit createInitialState 1)) Op.pow) 2) 0)).error = false ∧
    (parseNum (evaluate (inputDigit (inputDigit
      (setOperator ((fun t => inputDigit t 0)^[15] (inputDigit createInitialState 1)) Op.pow) 2) 0)).display).isSome = false ∧
    ¬ ',' ∈ (evaluate (inputDigit (inputDigit
      (setOperator ((fun t => inputDigit t 0)^[15] (inputDigit createInitialState 1)) Op.pow) 2) 0)).display ∧
    (evaluate (inputDigit (inputDigit
      (setOperator ((fun t => inputDigit t 0)^[15] (inputDigit createInitialState 1)) Op.pow) 2) 0)).display = infStr := by
  have h2 : (fun t => inputDigit t 0)^[6] (inputDigit
      (setOperator ((fun t => inputDigit t 0)^[15] (inputDigit createInitialState 1)) Op.mul) 1) =
      ⟨['1', '0', '0', '0', '0', '0', '0'], some ⟨1000000000000000, 1⟩, some Op.mul, false,
        none, none, false, none, none⟩ := by decide
  have hc : compute
      (operandA ⟨['1', '0', '0', '0', '0', '0', '0'], some ⟨1000000000000000, 1⟩, some Op.mul,
        false, none, none, false, none, none⟩)
      (operandB ⟨['1', '0', '0', '0', '0', '0', '0'], some ⟨1000000000000000, 1⟩, some Op.mul,
        false, none, none, false, none, none⟩) Op.mul = .finite ⟨1000000000000000000000, 1⟩ := by
    decide
  have hb : operandB ⟨['1', '0', '0', '0', '0', '0', '0'], some ⟨1000000000000000, 1⟩, some Op.mul,
      false, none, none, false, none, none⟩ = ⟨1000000, 1⟩ := by decide
  have h3 : evaluate ((fun t => inputDigit t 0)^[6] (inputDigit
      (setOperator ((fun t => inputDigit t 0)^[15] (inputDigit createInitialState 1)) Op.mul) 1)) =
      ⟨"1,000,000,000,000,000,000,000".toList, some ⟨1000000000000000000000, 1⟩, none, true,
        some Op.mul, some ⟨1000000, 1⟩, false, none, none⟩ := by
    rw [h2, evaluate_op_eq rfl rfl, hc, hb]
    simp only [resultRecord, fmtBig]
    decide
  have g2 : inputDigit (inputDigit
      (setOperator ((fun t => inputDigit t 0)^[15] (inputDigit createInitialState 1)) Op.pow) 2) 0 =
      ⟨['2', '0'], some ⟨1000000000000000, 1⟩, some Op.pow, false,
        none, none, false, none, none⟩ := by decide
  have gc : compute
      (operandA ⟨['2', '0'], some ⟨1000000000000000, 1⟩, some Op.pow,
        false, none, none, false, none, none⟩)
      (operandB ⟨['2', '0'], some ⟨1000000000000000, 1⟩, some Op.pow,
        false, none, none, false, none, none⟩) Op.pow = .finite ⟨10 ^ 300, 1⟩ := by
    decide
  have gb : operandB ⟨['2', '0'], some ⟨1000000000000000, 1⟩, some Op.pow,
      false, none, none, false, none, none⟩ = ⟨20, 1⟩ := by decide
  have g3 : evaluate (inputDigit (inputDigit
      (setOperator ((fun t => inputDigit t 0)^[15] (inputDigit createInitialState 1)) Op.pow) 2) 0) =
      ⟨infStr, some ⟨10 ^ 300, 1⟩, none, true,
        some Op.pow, some ⟨20, 1⟩, false, none, none⟩ := by
    rw [g2, evaluate_op_eq rfl rfl, gc, gb]
    simp only [resultRecord, fmtInf]
    decide
  refine ⟨?_, by rw [h3], by rw [h3]; decide, by rw [h3], ?_, by rw [g3], by rw [g3]; decide,
    by rw [g3]; decide, by rw [g3]⟩
  · exact Reachable.evalStep (reachable_digit_iter 0 6 (Reachable.digit 1
      (Reachable.setOp Op.mul (reachable_digit_iter 0 15 (Reachable.digit 1 Reachable.init)))))
  · exact Reachable.evalStep (Reachable.digit 0 (Reachable.digit 2
      (Reachable.setOp Op.pow (reachable_digit_iter 0 15 (Reachable.digit 1 Reachable.init)))))

/-- **C1** (amended): in every reachable non-error state the display either
parses to a finite number, is a comma-grouped locale rendering of a large
result (which `Number()` does not accept), or is one of the two overflow
strings `"Infinity"`/`"-Infinity"` (which `Number()` does not accept as a
finite value). -/
theorem reachable_display_parses_or_grouped (s : CalcState) (hr : Reachable s)
    (he : s.error = false) :
    (parseNum s.display).isSome = true ∨ ',' ∈ s.display ∨ infLike s.display := by
  rcases reachable_inv hr with h | hg | ⟨hinf, _⟩
  · rw [he] at h
    exact absurd h (by simp)
  · by_cases hc : ',' ∈ s.display
    · exact Or.inr (Or.inl hc)
    · exact Or.inl (parseNum_good_isSome hg hc)
  · exact Or.inr (Or.inr hinf)

/-- Witness for `reachable_display_parses_or_grouped` at the initial
state. -/
theorem reachable_display_parses_or_grouped_witness :
    (parseNum createInitialState.display).isSome = true ∨ ',' ∈ createInitialState.display ∨
      infLike createInitialState.display :=
  reachable_display_parses_or_grouped _ Reachable.init rfl
